import Mathlib

/-!
Verification of the platform-agnostic audio core of a keyboard firmware
(quantum/audio/audio.c): the tone stack, the melody sequencer and the
periodic state-advance tick.

The C globals are collected in one state record.  C floats are modelled as
exact rationals (the spec treats frequencies and durations as reals); the
machine-integer globals (uint8_t active_tones and note_tempo, uint32_t
note_position) keep their wrap-around / truncation behaviour explicitly.
The hardware driver is external; its start/stop callbacks are recorded in
counters.  Two ghost logs record the audio_play_tone / audio_stop_tone
invocations so that theorems can speak about the sequence of requested and
released frequencies.
-/

set_option maxHeartbeats 4000000

/- The Batteries rational-number arithmetic is marked irreducible, which
blocks the Decidable instances from evaluating concrete states; restore
plain reducibility for this development so that concrete executions can be
settled by decide. -/
attribute [local semireducible] Rat.add Rat.mul Rat.sub Rat.inv Rat.ofScientific

/-- AUDIO_TONE_STACKSIZE, the tone-stack capacity (default 8). -/
def AUDIO_TONE_STACKSIZE : Nat := 8

/-- 2^32, the modulus of the uint32_t note_position. -/
def UINT32_MOD : Nat := 4294967296

/-- The global state of audio.c.  Fields keep the names of the C globals.
driver_started / driver_stopped count the audio_driver_start and
audio_driver_stop callbacks; req_log / rel_log are ghost observers listing
the (sign-normalized) arguments of every audio_play_tone resp.
audio_stop_tone call. -/
structure AudioState where
  active_tones : Nat
  frequencies : List ℚ
  playing_melody : Bool
  playing_note : Bool
  state_changed : Bool
  notes : List (ℚ × ℚ)
  notes_count : Nat
  notes_repeat : Bool
  note_length : ℚ
  note_tempo : Nat
  current_note : Nat
  note_position : Nat
  note_resting : Bool
  audio_inited : Bool
  enable : Bool
  driver_started : Nat
  driver_stopped : Nat
  req_log : List ℚ
  rel_log : List ℚ
deriving DecidableEq

/-- The post-boot state: audio_init has run (audio_inited corresponds to the
C global audio_initialized), the subsystem is enabled, the stack is empty.
The frequencies array carries its C aggregate initializer {-1.0}: slot 0 is
-1.0 and the remaining slots are zero-initialized.  note_tempo starts at
TEMPO_DEFAULT = 120 (musical_notes.h; theorems that depend on the tempo set
it explicitly via audio_set_tempo). -/
def initState : AudioState :=
  { active_tones := 0
    frequencies := [-1, 0, 0, 0, 0, 0, 0, 0]
    playing_melody := false
    playing_note := false
    state_changed := false
    notes := []
    notes_count := 0
    notes_repeat := false
    note_length := 0
    note_tempo := 120
    current_note := 0
    note_position := 0
    note_resting := false
    audio_inited := true
    enable := true
    driver_started := 0
    driver_stopped := 0
    req_log := []
    rel_log := [] }

/-- audio_init with its lazy-initialization guard.  The EEPROM read and the
startup-song playback (STARTUP_SONG is defined outside this repository) are
external; the effect retained is the flags the rest of audio.c observes.
All theorems below start from states with audio_inited = true, on which
this function is the identity. -/
def audio_init (s : AudioState) : AudioState :=
  if s.audio_inited then s
  else { s with audio_inited := true, enable := true }

/-- The downward scan loops of audio_play_tone and audio_stop_tone:
for (int i = n - 1; i >= 0; i--) { found = (frequencies[i] == frequency);
if (found) break; } -- returns the topmost matching index below n. -/
def find_top (fs : List ℚ) (freq : ℚ) : Nat → Option Nat
  | 0 => none
  | n + 1 => if fs.getD n 0 = freq then some n else find_top fs freq n

/-- The inner shift loops of audio_play_tone (fill value = the new
frequency) and audio_stop_tone (fill value = -1), with the trip count made
explicit: for (j = i; j < i + n; j++) { f[j] = f[j+1]; f[j+1] = v; }. -/
def shift_fill (fs : List ℚ) (v : ℚ) (j : Nat) : Nat → List ℚ
  | 0 => fs
  | n + 1 => shift_fill ((fs.set j (fs.getD (j + 1) 0)).set (j + 1) v) v (j + 1) n

/-- The eviction loop of audio_play_tone, with the trip count made
explicit: for (i = j; i < j + n; i++) f[i] = f[i+1]. -/
def shift_left (fs : List ℚ) (j : Nat) : Nat → List ℚ
  | 0 => fs
  | n + 1 => shift_left (fs.set j (fs.getD (j + 1) 0)) (j + 1) n

/-- The sign normalization at the head of audio_play_tone and
audio_stop_tone: if (frequency < 0.0f) frequency = -1 * frequency. -/
def fabs (frequency : ℚ) : ℚ := if frequency < 0 then -frequency else frequency

/-- audio_stop_tone.  The C uint8_t decrement active_tones-- is modelled as
(+255) % 256 so that the (un)reachability of the wrap-around is a statement,
not an assumption; the subsequent dead check `if (active_tones < 0)` of the
unsigned counter is omitted (it is never true).  The scan runs over the
whole AUDIO_TONE_STACKSIZE array, exactly as in the C loop. -/
def audio_stop_tone (s : AudioState) (frequency : ℚ) : AudioState :=
  let frequency := fabs frequency
  let s := { s with rel_log := s.rel_log ++ [frequency] }
  if s.playing_note = false then s
  else
    let s := audio_init s
    match find_top s.frequencies frequency AUDIO_TONE_STACKSIZE with
    | none => s
    | some i =>
      let fs := shift_fill (s.frequencies.set i (-1)) (-1) i (AUDIO_TONE_STACKSIZE - 1 - i)
      let s := { s with frequencies := fs, state_changed := true,
                        active_tones := (s.active_tones + 255) % 256 }
      if s.active_tones = 0 then
        { s with driver_stopped := s.driver_stopped + 1, playing_note := false }
      else s

/-- audio_stop_all: empty the stack, fire driver-stop, clear the playback
flags, reset every array slot to -1.0f. -/
def audio_stop_all (s : AudioState) : AudioState :=
  let s := audio_init s
  { s with active_tones := 0,
           driver_stopped := s.driver_stopped + 1,
           playing_melody := false,
           playing_note := false,
           frequencies := List.replicate AUDIO_TONE_STACKSIZE (-1) }

/-- audio_play_tone.  The search is bounded by active_tones; a found
frequency is shifted to the top of the stack and the call returns without
touching the driver.  A new frequency is appended, evicting the oldest
entry when the uint8_t counter (incremented mod 256) exceeds the capacity;
the driver is started on the 0 -> 1 transition. -/
def audio_play_tone (s : AudioState) (frequency : ℚ) : AudioState :=
  if s.enable = false then s
  else
    let s := audio_init s
    let frequency := fabs frequency
    let s := { s with req_log := s.req_log ++ [frequency] }
    match find_top s.frequencies frequency s.active_tones with
    | some i =>
      { s with frequencies :=
          shift_fill s.frequencies frequency i (s.active_tones - 1 - i) }
    | none =>
      let a := (s.active_tones + 1) % 256
      let af : Nat × List ℚ :=
        if AUDIO_TONE_STACKSIZE < a then
          (AUDIO_TONE_STACKSIZE, shift_left s.frequencies 0 (AUDIO_TONE_STACKSIZE - 1))
        else (a, s.frequencies)
      let s := { s with active_tones := af.1, state_changed := true, playing_note := true,
                        frequencies := af.2.set (af.1 - 1) frequency }
      if s.active_tones = 1 then { s with driver_started := s.driver_started + 1 } else s

/-- audio_play_melody: install the SONG reference and start its first note.
The caller-owned notes array is passed by value here (the C code borrows a
pointer); n_count plays the role of notes_count and may be smaller than the
list. -/
def audio_play_melody (s : AudioState) (np : List (ℚ × ℚ)) (n_count : Nat)
    (n_repeat : Bool) : AudioState :=
  if s.enable = false then s
  else
    let s := audio_init s
    let s := if s.playing_note then audio_stop_all s else s
    let s := { s with playing_melody := true, note_resting := false,
                      notes := np, notes_count := n_count, notes_repeat := n_repeat,
                      current_note := 0 }
    let s := { s with
      note_length := (np.getD 0 (0, 0)).2 * (60 / (s.note_tempo : ℚ)),
      note_position := 0 }
    audio_play_tone s (np.getD 0 (0, 0)).1

/-- audio_play_click.  In the C source, duration_tone and duration_delay
are computed as (64 / 60) * note_tempo * (duration / 1000.0f): 64 / 60 is
integer division of two int literals and evaluates to 1, which the Nat
division below reproduces.  delay is a uint16_t, so `delay <= 0.0f` holds
exactly when delay = 0.  The second slot of the 1-note click is the global
click[1] array slot, never read because notes_count = 1. -/
def audio_play_click (s : AudioState) (delay : Nat) (frequency : ℚ)
    (duration : Nat) : AudioState :=
  let duration_tone : ℚ := ((64 / 60 : Nat) : ℚ) * (s.note_tempo : ℚ) * ((duration : ℚ) / 1000)
  let duration_delay : ℚ := ((64 / 60 : Nat) : ℚ) * (s.note_tempo : ℚ) * ((delay : ℚ) / 1000)
  if delay = 0 then
    audio_play_melody s [(frequency, duration_tone), (0, 0)] 1 false
  else
    audio_play_melody s [(0, duration_delay), (frequency, duration_tone)] 2 false

/-- (*notes_pointer)[i], reading a note of the installed melody. -/
def note_at (s : AudioState) (i : Nat) : ℚ × ℚ := s.notes.getD i (0, 0)

/-- C assigns the float difference note_position - note_length * end back
to the uint32_t note_position, truncating toward zero; at every use site
the guard note_position >= note_length * end makes the value nonnegative,
so truncation is the floor. -/
def floor_to_nat (q : ℚ) : Nat := q.floor.toNat

/-- Lines 411-441 of audio_advance_state: the note transition taken when
the current note is complete and the melody continues (current_note has
already been advanced, and rolled back to 0 in the repeat case).  Either a
short rest separating two identical successive notes is inserted, or the
sequencer advances to the new note, releasing the previous frequency only
when it differs from the new one. -/
def melody_transition (s : AudioState) (previous : Nat) (e : ℚ) : AudioState :=
  if s.note_resting = false ∧ (note_at s previous).1 = (note_at s s.current_note).1 then
    let s := { s with note_resting := true, current_note := previous }
    let s := audio_play_tone s 0
    let s := audio_stop_tone s (note_at s previous).1
    { s with
      note_position := floor_to_nat ((s.note_position : ℚ) - s.note_length * e),
      note_length := 2 * (60 / (s.note_tempo : ℚ)) }
  else
    let s := { s with note_resting := false }
    let s := audio_play_tone s (note_at s s.current_note).1
    let s := if (note_at s previous).1 ≠ (note_at s s.current_note).1 then
               audio_stop_tone s (note_at s previous).1
             else s
    { s with
      note_position := floor_to_nat ((s.note_position : ℚ) - s.note_length * e),
      note_length := (note_at s s.current_note).2 * (60 / (s.note_tempo : ℚ)) }

/-- The tail of audio_advance_state shared by every path that does not
return early: the defensive stop_all when neither a note nor a melody is
active, then the state_changed latch, which forces the result to true and
clears itself. -/
def advance_tail (s : AudioState) (goto_next_note : Bool) : Bool × AudioState :=
  let s := if s.playing_note = false ∧ s.playing_melody = false then audio_stop_all s else s
  if s.state_changed then (true, { s with state_changed := false })
  else (goto_next_note, s)

/-- audio_advance_state(step, end).  vibrato and glissando are the globals
of the external voices.c module, passed as inputs; the tone-multiplexing
block is compiled out (AUDIO_ENABLE_TONE_MULTIPLEXING undefined).  Note
that the melody branch overwrites goto_next_note with the completion test,
and that the terminal transition of a non-repeating melody returns
immediately, skipping advance_tail. -/
def audio_advance_state (s : AudioState) (step : Nat) (e : ℚ)
    (vibrato glissando : Bool) : Bool × AudioState :=
  let goto1 := s.playing_note && (vibrato || glissando)
  if s.playing_melody then
    let pos := (s.note_position + step) % UINT32_MOD
    let s := { s with note_position := pos }
    if s.note_length * e ≤ (pos : ℚ) then
      let previous := s.current_note
      let s := { s with current_note := s.current_note + 1 }
      if s.notes_count ≤ s.current_note then
        if s.notes_repeat then
          advance_tail (melody_transition { s with current_note := 0 } previous e) true
        else
          (true, audio_stop_tone { s with playing_melody := false } (note_at s previous).1)
      else
        advance_tail (melody_transition s previous e) true
    else
      advance_tail s false
  else
    advance_tail s goto1

/-- audio_set_tempo: floor of 10, no upper clamp (the 250 ceiling in the
source is commented out). -/
def audio_set_tempo (s : AudioState) (tempo : Nat) : AudioState :=
  if tempo < 10 then { s with note_tempo := 10 } else { s with note_tempo := tempo }

/-- audio_increase_tempo: saturate at 255.  Under the guard the sum stays
within uint8_t range, so plain addition is the C addition. -/
def audio_increase_tempo (s : AudioState) (tempo_change : Nat) : AudioState :=
  if 255 - s.note_tempo < tempo_change then { s with note_tempo := 255 }
  else { s with note_tempo := s.note_tempo + tempo_change }

/-- audio_decrease_tempo: saturate at the floor 10.  The C comparison
tempo_change >= note_tempo - 10 happens after integer promotion, hence the
Int arithmetic; under the negated guard the subtraction stays positive. -/
def audio_decrease_tempo (s : AudioState) (tempo_change : Nat) : AudioState :=
  if (s.note_tempo : Int) - 10 ≤ (tempo_change : Int) then { s with note_tempo := 10 }
  else { s with note_tempo := s.note_tempo - tempo_change }

/-- The active portion of the tone stack: slots 0 .. active_tones-1, oldest
first (audio_get_frequency presents them most-recent-first). -/
def activeFreqs (s : AudioState) : List ℚ := s.frequencies.take s.active_tones

/-- Run audio_advance_state over a list of tick steps with end fraction 1
and the voice effects off, keeping the final state. -/
def runTicks (s : AudioState) (steps : List Nat) : AudioState :=
  steps.foldl (fun s st => (audio_advance_state s st 1 false false).2) s

/-- Total elapsed time before the melody-completion signal: feed the tick
steps to audio_advance_state (end fraction 1, voice effects off) and sum
the steps consumed up to and including the call after which playing_melody
is false.  none if the melody does not complete within the given steps. -/
def ticksTaken (s : AudioState) : List Nat → Option Nat
  | [] => none
  | st :: rest =>
    let s' := (audio_advance_state s st 1 false false).2
    if s'.playing_melody = false then some st
    else (ticksTaken s' rest).map (fun t => st + t)

/-- The scaled length of note i of a melody at tempo T, as computed by
audio_play_melody / audio_advance_state: duration * (60 / tempo). -/
def noteLen (ns : List (ℚ × ℚ)) (T : Nat) (i : Nat) : ℚ :=
  (ns.getD i (0, 0)).2 * (60 / (T : ℚ))

/-- Sum of the scaled note lengths of notes i, i+1, ..., i+fuel-1. -/
def restSumAux (ns : List (ℚ × ℚ)) (T : Nat) : Nat → Nat → ℚ
  | _, 0 => 0
  | i, fuel + 1 => noteLen ns T i + restSumAux ns T (i + 1) fuel

/-- Sum of the scaled note lengths of the melody from note i to its end:
for i = 0 this is the claim's total duration, the sum over all notes of
duration x (60 / tempo). -/
def restSum (ns : List (ℚ × ℚ)) (T : Nat) (i : Nat) : ℚ :=
  restSumAux ns T i (ns.length - i)

/-- The melody-sequencer portion of the state during an in-flight playback
of melody ns at tempo T: the sequencer is at note i with elapsed position
pos and the derived note length, not resting, not repeating. -/
def MelodyRun (ns : List (ℚ × ℚ)) (T i pos : Nat) (s : AudioState) : Prop :=
  s.playing_melody = true ∧ s.notes = ns ∧ s.notes_count = ns.length ∧
  s.notes_repeat = false ∧ s.note_resting = false ∧ s.current_note = i ∧
  s.note_position = pos ∧ s.note_length = noteLen ns T i ∧ s.note_tempo = T

/-- The melodies covered by the amended duration-conservation claim: at
least one note; a positive tick bound B; every scaled note length is a
whole number of ticks at least B (so the uint32 truncation of the carried
overshoot is exact and no tick overshoots more than one note); no two
consecutive notes share a frequency (so no synthetic rest is inserted);
and the total duration stays clear of the uint32 wrap. -/
def GoodMelody (ns : List (ℚ × ℚ)) (T B : Nat) : Prop :=
  1 ≤ ns.length ∧ 1 ≤ B ∧
  (∀ j, j < ns.length → (noteLen ns T j).den = 1 ∧ (B : ℚ) ≤ noteLen ns T j) ∧
  (∀ j, j < ns.length - 1 → (ns.getD j (0, 0)).1 ≠ (ns.getD (j + 1) (0, 0)).1) ∧
  restSum ns T 0 + (B : ℚ) ≤ (UINT32_MOD : ℚ)

instance (ns : List (ℚ × ℚ)) (T B : Nat) : Decidable (GoodMelody ns T B) := by
  unfold GoodMelody
  haveI h1 : Decidable
      (∀ j, j < ns.length → (noteLen ns T j).den = 1 ∧ (B : ℚ) ≤ noteLen ns T j) :=
    Nat.decidableBallLT ns.length _
  haveI h2 : Decidable
      (∀ j, j < ns.length - 1 → (ns.getD j (0, 0)).1 ≠ (ns.getD (j + 1) (0, 0)).1) :=
    Nat.decidableBallLT (ns.length - 1) _
  exact inferInstance

/-- Two states agree on every field the melody sequencer reads or writes. -/
def MelodySame (s t : AudioState) : Prop :=
  s.playing_melody = t.playing_melody ∧ s.notes = t.notes ∧
  s.notes_count = t.notes_count ∧ s.notes_repeat = t.notes_repeat ∧
  s.note_length = t.note_length ∧ s.note_tempo = t.note_tempo ∧
  s.current_note = t.current_note ∧ s.note_position = t.note_position ∧
  s.note_resting = t.note_resting

/-- The condition under which a call audio_advance_state(step, e) takes the
terminal transition of a non-repeating melody (the early return at line
407 of audio.c). -/
def melodyEnds (s : AudioState) (step : Nat) (e : ℚ) : Prop :=
  s.playing_melody = true ∧
  s.note_length * e ≤ (((s.note_position + step) % UINT32_MOD : Nat) : ℚ) ∧
  s.notes_count ≤ s.current_note + 1 ∧
  s.notes_repeat = false

instance (s : AudioState) (step : Nat) (e : ℚ) : Decidable (melodyEnds s step e) := by
  unfold melodyEnds
  exact inferInstance

/-- Well-formedness of the tone stack: the array has its C length, the
counter is within capacity, and the active slots hold pairwise distinct
frequencies. -/
def StackWF (s : AudioState) : Prop :=
  s.audio_inited = true ∧
  s.frequencies.length = AUDIO_TONE_STACKSIZE ∧
  s.active_tones ≤ AUDIO_TONE_STACKSIZE ∧
  (activeFreqs s).Nodup

instance (s : AudioState) : Decidable (StackWF s) := by
  unfold StackWF
  exact inferInstance

/-! ### Concrete scenario states used by the claim theorems and witnesses -/

/-- Post-boot state with the tempo set explicitly to 120 beats per minute. -/
def s120 : AudioState := audio_set_tempo initState 120

/-- Post-boot state with the tempo set explicitly to 30 beats per minute. -/
def s30 : AudioState := audio_set_tempo initState 30

/-- The melody of the rest-insertion scenario: two notes of frequency 440
with duration 4 each. -/
def mel440 : List (ℚ × ℚ) := [(440, 4), (440, 4)]

/-- audio_play_melody(mel440, 2, false) at tempo 120: each note is 2 time
units long, the inserted rest 1 unit. -/
def c2_start : AudioState := audio_play_melody s120 mel440 2 false

/-- audio_play_melody(mel440, 2, false) at tempo 30: each note is 8 time
units long, the inserted rest 4 units. -/
def c3_start : AudioState := audio_play_melody s30 mel440 2 false

/-- Stack state after audio_play_tone(100); audio_play_tone(200). -/
def c1_s2 : AudioState := audio_play_tone (audio_play_tone initState 100) 200

/-- A full tone stack: eight distinct frequencies played from the post-boot
state. -/
def fullStack : AudioState :=
  [100, 200, 300, 400, 500, 600, 700, 800].foldl audio_play_tone initState

/-- A one-note melody at tempo 120 about to take its terminal transition,
with the state_changed latch clear so that the latch behaviour of the
terminal call is observable. -/
def c4_end : AudioState :=
  { audio_play_melody s120 [(440, 2)] 1 false with state_changed := false }

/-- audio_play_click(delay=0, frequency=1000, duration=5) at tempo 120. -/
def c5_click : AudioState := audio_play_click s120 0 1000 5

/-- The public mutating operations of audio.c, as one action type. -/
inductive AudioOp where
  | playTone (f : ℚ)
  | stopTone (f : ℚ)
  | stopAll
  | playMelody (np : List (ℚ × ℚ)) (n_count : Nat) (n_repeat : Bool)
  | advance (step : Nat) (e : ℚ) (vib glis : Bool)

/-- Apply one public operation to the state. -/
def applyOp (s : AudioState) : AudioOp → AudioState
  | AudioOp.playTone f => audio_play_tone s f
  | AudioOp.stopTone f => audio_stop_tone s f
  | AudioOp.stopAll => audio_stop_all s
  | AudioOp.playMelody np c r => audio_play_melody s np c r
  | AudioOp.advance st e v g => (audio_advance_state s st e v g).2

/-- The playing_note / active_tones coupling: playing_note holds exactly
when at least one tone is active, and the uint8_t counter stays within the
stack capacity (which is what keeps its increment and decrement free of
wrap-around). -/
def NoteCountInv (s : AudioState) : Prop :=
  (s.playing_note = true ↔ 1 ≤ s.active_tones) ∧
  s.active_tones ≤ AUDIO_TONE_STACKSIZE

instance (s : AudioState) : Decidable (NoteCountInv s) := by
  unfold NoteCountInv
  exact inferInstance

/-! ### List infrastructure: specifications of the scan and shift loops -/

theorem list_eq_of_getD (l₁ l₂ : List ℚ) (hlen : l₁.length = l₂.length)
    (h : ∀ k, k < l₁.length → l₁.getD k 0 = l₂.getD k 0) : l₁ = l₂ := by
  apply List.ext_getElem?
  intro k
  by_cases hk : k < l₁.length
  · have hk2 : k < l₂.length := hlen ▸ hk
    rw [List.getElem?_eq_getElem hk, List.getElem?_eq_getElem hk2]
    have hgd := h k hk
    rw [List.getD_eq_getElem _ _ hk, List.getD_eq_getElem _ _ hk2] at hgd
    exact congrArg some hgd
  · rw [List.getElem?_eq_none (by omega), List.getElem?_eq_none (by omega)]

theorem shift_left_length (n : Nat) : ∀ (fs : List ℚ) (j : Nat),
    (shift_left fs j n).length = fs.length := by
  induction n with
  | zero => intro fs j; rfl
  | succ n ih => intro fs j; rw [shift_left, ih]; simp

theorem shift_left_getD (n : Nat) : ∀ (fs : List ℚ) (j k : Nat), j + n < fs.length →
    (shift_left fs j n).getD k 0 =
      if j ≤ k ∧ k < j + n then fs.getD (k + 1) 0 else fs.getD k 0 := by
  induction n with
  | zero =>
    intro fs j k _
    rw [shift_left, if_neg (by omega)]
  | succ n ih =>
    intro fs j k hlen
    rw [shift_left, ih _ _ _ (by simpa using by omega)]
    simp only [List.getD_eq_getElem?_getD]
    by_cases h1 : j + 1 ≤ k ∧ k < j + 1 + n
    · rw [if_pos h1, if_pos (by omega), List.getElem?_set_ne (by omega)]
    · rw [if_neg h1]
      by_cases h2 : k = j
      · subst h2
        rw [if_pos (by omega), List.getElem?_set_self (by omega)]
        have hk1 : k + 1 < fs.length := by omega
        rw [List.getElem?_eq_getElem hk1]
        simp [List.getD_eq_getElem?_getD, List.getElem?_eq_getElem hk1]
      · rw [if_neg (by omega), List.getElem?_set_ne (by omega)]

theorem shift_fill_length (n : Nat) : ∀ (fs : List ℚ) (v : ℚ) (j : Nat),
    (shift_fill fs v j n).length = fs.length := by
  induction n with
  | zero => intro fs v j; rfl
  | succ n ih => intro fs v j; rw [shift_fill, ih]; simp

theorem shift_fill_getD (n : Nat) : ∀ (fs : List ℚ) (v : ℚ) (j k : Nat), j + n < fs.length →
    (shift_fill fs v j n).getD k 0 =
      if j ≤ k ∧ k < j + n then fs.getD (k + 1) 0
      else if k = j + n ∧ 0 < n then v
      else fs.getD k 0 := by
  induction n with
  | zero =>
    intro fs v j k _
    rw [shift_fill, if_neg (by omega), if_neg (by omega)]
  | succ n ih =>
    intro fs v j k hlen
    rw [shift_fill, ih _ _ _ _ (by simpa using by omega)]
    simp only [List.getD_eq_getElem?_getD]
    by_cases h1 : j + 1 ≤ k ∧ k < j + 1 + n
    · rw [if_pos h1, if_pos (by omega), List.getElem?_set_ne (by omega),
        List.getElem?_set_ne (by omega)]
    · rw [if_neg h1]
      by_cases h2 : k = j + 1 + n ∧ 0 < n
      · rw [if_pos h2, if_neg (by omega), if_pos (by omega)]
      · rw [if_neg h2]
        by_cases h3 : k = j
        · subst h3
          rw [if_pos (by omega), List.getElem?_set_ne (by omega),
            List.getElem?_set_self (by omega)]
          have hk1 : k + 1 < fs.length := by omega
          simp [List.getElem?_eq_getElem hk1]
        · by_cases h4 : k = j + 1 ∧ n = 0
          · rw [if_neg (by omega), if_pos (by omega)]
            rw [h4.1, List.getElem?_set_self (by simp; omega)]
            rfl
          · rw [if_neg (by omega), if_neg (by omega), List.getElem?_set_ne (by omega),
              List.getElem?_set_ne (by omega)]

theorem find_top_eq_none (fs : List ℚ) (v : ℚ) (n : Nat) :
    find_top fs v n = none ↔ ∀ k, k < n → fs.getD k 0 ≠ v := by
  induction n with
  | zero => simp [find_top]
  | succ n ih =>
    rw [find_top]
    by_cases h : fs.getD n 0 = v
    · simp only [if_pos h]
      constructor
      · intro hc; exact absurd hc (by simp)
      · intro hall; exact absurd h (hall n (by omega))
    · simp only [if_neg h, ih]
      constructor
      · intro hall k hk
        rcases Nat.lt_succ_iff_lt_or_eq.mp hk with h1 | h1
        · exact hall k h1
        · subst h1; exact h
      · intro hall k hk; exact hall k (by omega)

theorem find_top_eq_some (fs : List ℚ) (v : ℚ) (n : Nat) : ∀ i,
    find_top fs v n = some i →
      i < n ∧ fs.getD i 0 = v ∧ ∀ k, i < k → k < n → fs.getD k 0 ≠ v := by
  induction n with
  | zero => simp [find_top]
  | succ n ih =>
    intro i
    rw [find_top]
    by_cases h : fs.getD n 0 = v
    · simp only [if_pos h, Option.some.injEq]
      intro hi
      subst hi
      exact ⟨by omega, h, fun k hk1 hk2 => by omega⟩
    · simp only [if_neg h]
      intro hi
      obtain ⟨h1, h2, h3⟩ := ih i hi
      refine ⟨by omega, h2, fun k hk1 hk2 => ?_⟩
      rcases Nat.lt_succ_iff_lt_or_eq.mp hk2 with h4 | h4
      · exact h3 k hk1 h4
      · subst h4; exact h

theorem mem_take_iff_getD (fs : List ℚ) (a : Nat) (ha : a ≤ fs.length) (v : ℚ) :
    v ∈ fs.take a ↔ ∃ k, k < a ∧ fs.getD k 0 = v := by
  rw [List.mem_iff_getElem]
  constructor
  · rintro ⟨k, hk, hv⟩
    have hlen : (fs.take a).length = a := by simp; omega
    rw [List.getElem_take] at hv
    exact ⟨k, by omega, by rw [List.getD_eq_getElem _ _ (by omega)]; exact hv⟩
  · rintro ⟨k, hk, hv⟩
    have hlen : (fs.take a).length = a := by simp; omega
    refine ⟨k, by omega, ?_⟩
    rw [List.getElem_take]
    rw [List.getD_eq_getElem _ _ (by omega : k < fs.length)] at hv
    exact hv

theorem getD_append_left (l₁ l₂ : List ℚ) (k : Nat) (h : k < l₁.length) :
    (l₁ ++ l₂).getD k 0 = l₁.getD k 0 := by
  simp only [List.getD_eq_getElem?_getD]
  rw [List.getElem?_append, if_pos h]

theorem getD_append_right (l₁ l₂ : List ℚ) (k : Nat) (h : l₁.length ≤ k) :
    (l₁ ++ l₂).getD k 0 = l₂.getD (k - l₁.length) 0 := by
  simp only [List.getD_eq_getElem?_getD]
  rw [List.getElem?_append, if_neg (by omega)]

theorem getD_take_of_lt (fs : List ℚ) (a k : Nat) (h : k < a) :
    (fs.take a).getD k 0 = fs.getD k 0 := by
  simp only [List.getD_eq_getElem?_getD]
  rw [List.getElem?_take_of_lt h]

theorem getD_drop (fs : List ℚ) (a k : Nat) :
    (fs.drop a).getD k 0 = fs.getD (a + k) 0 := by
  simp only [List.getD_eq_getElem?_getD]
  rw [List.getElem?_drop]

theorem erase_eq_take_append_drop (A : List ℚ) : ∀ (i : Nat) (v : ℚ),
    i < A.length → A.getD i 0 = v → (∀ k, k < i → A.getD k 0 ≠ v) →
    A.erase v = A.take i ++ A.drop (i + 1) := by
  induction A with
  | nil => intro i v hi _ _; simp at hi
  | cons x A ih =>
    intro i v hi hv hbelow
    cases i with
    | zero =>
      simp only [List.getD_cons_zero] at hv
      subst hv
      simp
    | succ j =>
      have hx : x ≠ v := by
        have := hbelow 0 (by omega)
        simpa using this
      rw [List.erase_cons_tail (by simpa using hx)]
      have hj : j < A.length := by simpa using hi
      have hv' : A.getD j 0 = v := by simpa using hv
      have hb' : ∀ k, k < j → A.getD k 0 ≠ v := by
        intro k hk
        have := hbelow (k + 1) (by omega)
        simpa using this
      rw [ih j v hj hv' hb']
      simp

theorem nodup_getD_ne (A : List ℚ) (hno : A.Nodup) (i k : Nat) (hi : i < A.length)
    (hk : k < A.length) (hne : i ≠ k) : A.getD i 0 ≠ A.getD k 0 := by
  rw [List.getD_eq_getElem _ _ hi, List.getD_eq_getElem _ _ hk]
  intro heq
  exact hne (List.Nodup.getElem_inj_iff hno |>.mp heq)

/-! ### Characterization of audio_play_tone on the three stack branches -/

theorem play_tone_found_eq (s : AudioState) (f : ℚ) (i : Nat)
    (hen : s.enable = true) (hinit : s.audio_inited = true)
    (hfind : find_top s.frequencies (fabs f) s.active_tones = some i) :
    audio_play_tone s f =
      { s with req_log := s.req_log ++ [fabs f],
               frequencies :=
                 shift_fill s.frequencies (fabs f) i (s.active_tones - 1 - i) } := by
  simp only [audio_play_tone, audio_init, hen, hinit]
  norm_num
  rw [hfind]
  simp [hinit, hen]

theorem play_tone_new_eq (s : AudioState) (f : ℚ)
    (hen : s.enable = true) (hinit : s.audio_inited = true)
    (ha : s.active_tones < AUDIO_TONE_STACKSIZE)
    (hfind : find_top s.frequencies (fabs f) s.active_tones = none) :
    audio_play_tone s f =
      (fun s2 => if s2.active_tones = 1
        then { s2 with driver_started := s2.driver_started + 1 } else s2)
      { s with req_log := s.req_log ++ [fabs f],
               active_tones := s.active_tones + 1,
               state_changed := true, playing_note := true,
               frequencies := s.frequencies.set s.active_tones (fabs f) } := by
  have ha8 : s.active_tones < 8 := by simpa [AUDIO_TONE_STACKSIZE] using ha
  have hmod : (s.active_tones + 1) % 256 = s.active_tones + 1 := Nat.mod_eq_of_lt (by omega)
  have hlt : ¬ (AUDIO_TONE_STACKSIZE < s.active_tones + 1) := by
    simp only [AUDIO_TONE_STACKSIZE]
    omega
  simp only [audio_play_tone, audio_init, hen, hinit]
  norm_num
  rw [hfind]
  simp [hmod, hlt, hinit, hen]

theorem play_tone_evict_eq (s : AudioState) (f : ℚ)
    (hen : s.enable = true) (hinit : s.audio_inited = true)
    (ha : s.active_tones = AUDIO_TONE_STACKSIZE)
    (hfind : find_top s.frequencies (fabs f) s.active_tones = none) :
    audio_play_tone s f =
      { s with req_log := s.req_log ++ [fabs f],
               active_tones := AUDIO_TONE_STACKSIZE,
               state_changed := true, playing_note := true,
               frequencies :=
                 (shift_left s.frequencies 0 (AUDIO_TONE_STACKSIZE - 1)).set
                   (AUDIO_TONE_STACKSIZE - 1) (fabs f) } := by
  have ha8 : s.active_tones = 8 := by simpa [AUDIO_TONE_STACKSIZE] using ha
  simp only [audio_play_tone, audio_init, hen, hinit]
  norm_num
  rw [hfind]
  simp [AUDIO_TONE_STACKSIZE, hinit, hen, ha8]

theorem play_tone_found_activeFreqs (s : AudioState) (f : ℚ) (i : Nat)
    (hen : s.enable = true) (hinit : s.audio_inited = true)
    (hlen : s.frequencies.length = AUDIO_TONE_STACKSIZE)
    (ha : s.active_tones ≤ AUDIO_TONE_STACKSIZE)
    (hfind : find_top s.frequencies (fabs f) s.active_tones = some i) :
    activeFreqs (audio_play_tone s f) =
      (activeFreqs s).take i ++ ((activeFreqs s).drop (i + 1) ++ [fabs f]) := by
  obtain ⟨hi, hv, -⟩ := find_top_eq_some _ _ _ _ hfind
  rw [AUDIO_TONE_STACKSIZE] at hlen ha
  rw [play_tone_found_eq s f i hen hinit hfind]
  unfold activeFreqs
  simp only
  have hslen : (shift_fill s.frequencies (fabs f) i (s.active_tones - 1 - i)).length =
      s.frequencies.length := shift_fill_length _ _ _ _
  have hti : ((s.frequencies.take s.active_tones).take i).length = i := by
    simp only [List.length_take, hlen]
    omega
  have hdlen : ((s.frequencies.take s.active_tones).drop (i + 1)).length =
      s.active_tones - (i + 1) := by
    simp only [List.length_drop, List.length_take, hlen]
    omega
  apply list_eq_of_getD
  · simp only [List.length_take, List.length_append, hslen, hlen, hti, hdlen,
      List.length_cons, List.length_nil]
    omega
  · intro k hk
    rw [List.length_take, hslen, hlen] at hk
    have hka : k < s.active_tones := by omega
    rw [getD_take_of_lt _ _ _ hka]
    rw [shift_fill_getD _ _ _ _ _ (by omega)]
    by_cases h1 : k < i
    · rw [if_neg (by omega), if_neg (by omega)]
      rw [getD_append_left _ _ _ (by rw [hti]; omega)]
      rw [getD_take_of_lt _ _ _ (by omega), getD_take_of_lt _ _ _ (by omega)]
    · rw [getD_append_right _ _ _ (by rw [hti]; omega), hti]
      by_cases h2 : k < s.active_tones - 1
      · rw [if_pos (by omega)]
        rw [getD_append_left _ _ _ (by rw [hdlen]; omega)]
        rw [getD_drop, getD_take_of_lt _ _ _ (by omega)]
        congr 1
        omega
      · have hk1 : k = s.active_tones - 1 := by omega
        rw [getD_append_right _ _ _ (by rw [hdlen]; omega), hdlen]
        rw [show k - i - (s.active_tones - (i + 1)) = 0 from by omega]
        simp only [List.getD_cons_zero]
        by_cases h3 : i < s.active_tones - 1
        · rw [if_neg (by omega), if_pos (by omega)]
        · rw [if_neg (by omega), if_neg (by omega)]
          rw [show k = i from by omega]
          exact hv

theorem play_tone_new_activeFreqs (s : AudioState) (f : ℚ)
    (hen : s.enable = true) (hinit : s.audio_inited = true)
    (hlen : s.frequencies.length = AUDIO_TONE_STACKSIZE)
    (ha : s.active_tones < AUDIO_TONE_STACKSIZE)
    (hfind : find_top s.frequencies (fabs f) s.active_tones = none) :
    activeFreqs (audio_play_tone s f) = activeFreqs s ++ [fabs f] := by
  have ha' := ha
  rw [AUDIO_TONE_STACKSIZE] at hlen ha'
  rw [play_tone_new_eq s f hen hinit ha hfind]
  have key : List.take (s.active_tones + 1) (s.frequencies.set s.active_tones (fabs f)) =
      List.take s.active_tones s.frequencies ++ [fabs f] := by
    apply list_eq_of_getD
    · simp only [List.length_take, List.length_set, List.length_append, hlen,
        List.length_cons, List.length_nil]
      omega
    · intro k hk
      rw [List.length_take, List.length_set, hlen] at hk
      have hk' : k < s.active_tones + 1 := by omega
      rw [getD_take_of_lt _ _ _ hk']
      by_cases h1 : k < s.active_tones
      · rw [getD_append_left _ _ _ (by rw [List.length_take, hlen]; omega)]
        rw [getD_take_of_lt _ _ _ h1]
        simp only [List.getD_eq_getElem?_getD]
        rw [List.getElem?_set_ne (by omega)]
      · have hk2 : k = s.active_tones := by omega
        rw [hk2]
        rw [getD_append_right _ _ _ (by rw [List.length_take, hlen]; omega)]
        simp only [List.getD_eq_getElem?_getD]
        rw [List.getElem?_set_self (by omega)]
        rw [List.length_take, hlen]
        rw [show s.active_tones - min s.active_tones 8 = 0 from by omega]
        rfl
  unfold activeFreqs
  simp only
  split
  · simpa using key
  · simpa using key

theorem play_tone_evict_activeFreqs (s : AudioState) (f : ℚ)
    (hen : s.enable = true) (hinit : s.audio_inited = true)
    (hlen : s.frequencies.length = AUDIO_TONE_STACKSIZE)
    (ha : s.active_tones = AUDIO_TONE_STACKSIZE)
    (hfind : find_top s.frequencies (fabs f) s.active_tones = none) :
    activeFreqs (audio_play_tone s f) = (activeFreqs s).drop 1 ++ [fabs f] := by
  rw [AUDIO_TONE_STACKSIZE] at hlen
  have ha8 : s.active_tones = 8 := by simpa [AUDIO_TONE_STACKSIZE] using ha
  rw [play_tone_evict_eq s f hen hinit ha hfind]
  unfold activeFreqs
  simp only [AUDIO_TONE_STACKSIZE]
  rw [ha8]
  have hsl : (shift_left s.frequencies 0 7).length = s.frequencies.length :=
    shift_left_length _ _ _
  apply list_eq_of_getD
  · simp only [List.length_take, List.length_set, List.length_append, List.length_drop,
      hsl, hlen, List.length_cons, List.length_nil]
    decide
  · intro k hk
    rw [List.length_take, List.length_set, hsl, hlen] at hk
    have hk8 : k < 8 := by omega
    rw [getD_take_of_lt _ _ _ hk8]
    by_cases h1 : k < 7
    · simp only [List.getD_eq_getElem?_getD]
      rw [List.getElem?_set_ne (by omega)]
      simp only [← List.getD_eq_getElem?_getD]
      rw [show (8 : Nat) - 1 = 7 from rfl, shift_left_getD _ _ _ _ (by omega)]
      rw [if_pos (by omega)]
      rw [getD_append_left _ _ _ (by rw [List.length_drop, List.length_take, hlen]; omega)]
      rw [getD_drop, getD_take_of_lt _ _ _ (by omega)]
      congr 1
      omega
    · have hk7 : k = 7 := by omega
      subst hk7
      simp only [List.getD_eq_getElem?_getD]
      rw [show (8 : Nat) - 1 = 7 from rfl, List.getElem?_set_self (by rw [hsl, hlen]; omega)]
      simp only [Option.getD_some]
      rw [← List.getD_eq_getElem?_getD]
      rw [getD_append_right _ _ _ (by rw [List.length_drop, List.length_take, hlen]; omega)]
      rw [List.length_drop, List.length_take, hlen]
      rw [show (7 : Nat) - (min 8 8 - 1) = 0 from rfl]
      rfl

/-! ### Field effects of audio_play_tone and preservation of StackWF -/

theorem play_tone_disabled (s : AudioState) (f : ℚ) (h : s.enable = false) :
    audio_play_tone s f = s := by
  simp [audio_play_tone, h]

theorem play_tone_found_fields (s : AudioState) (f : ℚ) (i : Nat)
    (hen : s.enable = true) (hinit : s.audio_inited = true)
    (hfind : find_top s.frequencies (fabs f) s.active_tones = some i) :
    (audio_play_tone s f).active_tones = s.active_tones ∧
    (audio_play_tone s f).playing_note = s.playing_note ∧
    (audio_play_tone s f).state_changed = s.state_changed ∧
    (audio_play_tone s f).driver_started = s.driver_started ∧
    (audio_play_tone s f).driver_stopped = s.driver_stopped ∧
    (audio_play_tone s f).frequencies.length = s.frequencies.length ∧
    (audio_play_tone s f).audio_inited = s.audio_inited := by
  rw [play_tone_found_eq s f i hen hinit hfind]
  exact ⟨rfl, rfl, rfl, rfl, rfl, shift_fill_length _ _ _ _, rfl⟩

theorem play_tone_new_fields (s : AudioState) (f : ℚ)
    (hen : s.enable = true) (hinit : s.audio_inited = true)
    (ha : s.active_tones < AUDIO_TONE_STACKSIZE)
    (hfind : find_top s.frequencies (fabs f) s.active_tones = none) :
    (audio_play_tone s f).active_tones = s.active_tones + 1 ∧
    (audio_play_tone s f).playing_note = true ∧
    (audio_play_tone s f).state_changed = true ∧
    (audio_play_tone s f).frequencies.length = s.frequencies.length ∧
    (audio_play_tone s f).audio_inited = s.audio_inited := by
  rw [play_tone_new_eq s f hen hinit ha hfind]
  simp only
  split <;> exact ⟨rfl, rfl, rfl, by simp, rfl⟩

theorem play_tone_evict_fields (s : AudioState) (f : ℚ)
    (hen : s.enable = true) (hinit : s.audio_inited = true)
    (ha : s.active_tones = AUDIO_TONE_STACKSIZE)
    (hfind : find_top s.frequencies (fabs f) s.active_tones = none) :
    (audio_play_tone s f).active_tones = AUDIO_TONE_STACKSIZE ∧
    (audio_play_tone s f).playing_note = true ∧
    (audio_play_tone s f).state_changed = true ∧
    (audio_play_tone s f).frequencies.length = s.frequencies.length ∧
    (audio_play_tone s f).audio_inited = s.audio_inited := by
  rw [play_tone_evict_eq s f hen hinit ha hfind]
  refine ⟨rfl, rfl, rfl, ?_, rfl⟩
  simp only [List.length_set]
  exact shift_left_length _ _ _

theorem find_top_some_of_mem (s : AudioState) (v : ℚ)
    (hlen : s.frequencies.length = AUDIO_TONE_STACKSIZE)
    (ha : s.active_tones ≤ AUDIO_TONE_STACKSIZE)
    (hmem : v ∈ activeFreqs s) :
    ∃ i, find_top s.frequencies v s.active_tones = some i := by
  cases hft : find_top s.frequencies v s.active_tones with
  | some i => exact ⟨i, rfl⟩
  | none =>
    obtain ⟨k, hk, hv⟩ :=
      (mem_take_iff_getD s.frequencies s.active_tones (by omega) v).mp hmem
    exact absurd hv ((find_top_eq_none _ _ _).mp hft k hk)

theorem find_top_none_of_not_mem (s : AudioState) (v : ℚ)
    (hlen : s.frequencies.length = AUDIO_TONE_STACKSIZE)
    (ha : s.active_tones ≤ AUDIO_TONE_STACKSIZE)
    (hnm : v ∉ activeFreqs s) :
    find_top s.frequencies v s.active_tones = none := by
  rw [find_top_eq_none]
  intro k hk hv
  exact hnm ((mem_take_iff_getD s.frequencies s.active_tones (by omega) v).mpr ⟨k, hk, hv⟩)

theorem activeFreqs_length (s : AudioState)
    (hlen : s.frequencies.length = AUDIO_TONE_STACKSIZE)
    (ha : s.active_tones ≤ AUDIO_TONE_STACKSIZE) :
    (activeFreqs s).length = s.active_tones := by
  rw [AUDIO_TONE_STACKSIZE] at hlen ha
  simp only [activeFreqs, List.length_take, hlen]
  omega

theorem play_tone_StackWF (s : AudioState) (f : ℚ) (h : StackWF s) :
    StackWF (audio_play_tone s f) := by
  obtain ⟨hinit, hlen, ha, hnd⟩ := h
  cases henb : s.enable with
  | false =>
    rw [play_tone_disabled s f henb]
    exact ⟨hinit, hlen, ha, hnd⟩
  | true =>
    have hAlen := activeFreqs_length s hlen ha
    cases hft : find_top s.frequencies (fabs f) s.active_tones with
    | some i =>
      obtain ⟨hi, hv, -⟩ := find_top_eq_some _ _ _ _ hft
      obtain ⟨f1, -, -, -, -, f6, f7⟩ := play_tone_found_fields s f i henb hinit hft
      refine ⟨by rw [f7]; exact hinit, by rw [f6]; exact hlen, by rw [f1]; exact ha, ?_⟩
      rw [play_tone_found_activeFreqs s f i henb hinit hlen ha hft]
      have hiA : i < (activeFreqs s).length := by omega
      have hvA : (activeFreqs s)[i] = fabs f := by
        have hgd : (activeFreqs s).getD i 0 = fabs f := by
          unfold activeFreqs
          rw [getD_take_of_lt _ _ _ hi]
          exact hv
        rw [List.getD_eq_getElem _ _ hiA] at hgd
        exact hgd
      have hdropc : (activeFreqs s).drop i = fabs f :: (activeFreqs s).drop (i + 1) := by
        rw [List.drop_eq_getElem_cons hiA, hvA]
      have h2 : List.Perm
          ((activeFreqs s).take i ++ ((activeFreqs s).drop (i + 1) ++ [fabs f]))
          ((activeFreqs s).take i ++ ([fabs f] ++ (activeFreqs s).drop (i + 1))) :=
        List.Perm.append_left _ List.perm_append_comm
      have h3 : (activeFreqs s).take i ++ ([fabs f] ++ (activeFreqs s).drop (i + 1)) =
          activeFreqs s := by
        rw [show [fabs f] ++ (activeFreqs s).drop (i + 1) =
              fabs f :: (activeFreqs s).drop (i + 1) from rfl]
        rw [← hdropc, List.take_append_drop]
      have hperm := h3 ▸ h2
      exact hperm.symm.nodup hnd
    | none =>
      have hnm : fabs f ∉ activeFreqs s := by
        intro hmem
        obtain ⟨j, hj⟩ := find_top_some_of_mem s (fabs f) hlen ha hmem
        rw [hft] at hj
        cases hj
      by_cases hfull : s.active_tones = AUDIO_TONE_STACKSIZE
      · obtain ⟨f1, -, -, f4, f5⟩ := play_tone_evict_fields s f henb hinit hfull hft
        refine ⟨by rw [f5]; exact hinit, by rw [f4]; exact hlen, by rw [f1], ?_⟩
        rw [play_tone_evict_activeFreqs s f henb hinit hlen hfull hft]
        rw [List.nodup_append]
        refine ⟨hnd.sublist (List.drop_sublist _ _), List.nodup_singleton _, ?_⟩
        intro x hx hx1
        rw [List.mem_singleton] at hx1
        subst hx1
        exact hnm (List.mem_of_mem_drop hx)
      · have halt : s.active_tones < AUDIO_TONE_STACKSIZE := by omega
        obtain ⟨f1, -, -, f4, f5⟩ := play_tone_new_fields s f henb hinit halt hft
        refine ⟨by rw [f5]; exact hinit, by rw [f4]; exact hlen,
          by rw [f1]; omega, ?_⟩
        rw [play_tone_new_activeFreqs s f henb hinit hlen halt hft]
        rw [List.nodup_append]
        exact ⟨hnd, List.nodup_singleton _, by
          intro x hx hx1
          rw [List.mem_singleton] at hx1
          subst hx1
          exact hnm hx⟩

/-! ### Claim theorems: tone-stack behaviour (C1, C6, C7) and tempo (C8) -/

/-- C1, counterexample: audio_play_tone on an already-present frequency is
NOT a pure no-op.  After playing 100 then 200 the active stack is
[100, 200]; playing 100 again moves it to the top, giving [200, 100], so
the stack contents' order changes (move-to-top does occur). -/
theorem c1_play_tone_present_reorders_cex :
    fabs 100 ∈ activeFreqs c1_s2 ∧
    activeFreqs c1_s2 = [100, 200] ∧
    activeFreqs (audio_play_tone c1_s2 100) = [200, 100] ∧
    activeFreqs (audio_play_tone c1_s2 100) ≠ activeFreqs c1_s2 := by
  decide

/-- C1, amended: for every frequency f already present in the (well-formed,
enabled) tone stack, audio_play_tone(f) moves the stored entry for f to the
top of the stack, keeping the relative order of the other entries; the
stack size and active-tone count are unchanged, audio_driver_start is not
called, and the state_changed latch and playing_note flag are untouched. -/
theorem c1_play_tone_present_moves_to_top (s : AudioState) (f : ℚ)
    (hwf : StackWF s) (hen : s.enable = true) (hmem : fabs f ∈ activeFreqs s) :
    activeFreqs (audio_play_tone s f) = (activeFreqs s).erase (fabs f) ++ [fabs f] ∧
    (audio_play_tone s f).active_tones = s.active_tones ∧
    (audio_play_tone s f).driver_started = s.driver_started ∧
    (audio_play_tone s f).state_changed = s.state_changed ∧
    (audio_play_tone s f).playing_note = s.playing_note := by
  obtain ⟨hinit, hlen, ha, hnd⟩ := hwf
  obtain ⟨i, hft⟩ := find_top_some_of_mem s (fabs f) hlen ha hmem
  obtain ⟨hi, hv, -⟩ := find_top_eq_some _ _ _ _ hft
  obtain ⟨f1, f2, f3, f4, -, -, -⟩ := play_tone_found_fields s f i hen hinit hft
  refine ⟨?_, f1, f4, f3, f2⟩
  rw [play_tone_found_activeFreqs s f i hen hinit hlen ha hft]
  have hAlen := activeFreqs_length s hlen ha
  have hvA : (activeFreqs s).getD i 0 = fabs f := by
    unfold activeFreqs
    rw [getD_take_of_lt _ _ _ hi]
    exact hv
  have hbelow : ∀ k, k < i → (activeFreqs s).getD k 0 ≠ fabs f := by
    intro k hk hkv
    have hne := nodup_getD_ne (activeFreqs s) hnd i k (by omega) (by omega) (by omega)
    rw [hvA, hkv] at hne
    exact hne rfl
  rw [erase_eq_take_append_drop (activeFreqs s) i (fabs f) (by omega) hvA hbelow]
  rw [List.append_assoc]

/-- C1 witness: the amended theorem applied to the concrete stack
[100, 200] with the duplicate request 100. -/
theorem c1_play_tone_present_moves_to_top_witness :
    activeFreqs (audio_play_tone c1_s2 100) =
      (activeFreqs c1_s2).erase (fabs 100) ++ [fabs 100] ∧
    (audio_play_tone c1_s2 100).active_tones = c1_s2.active_tones ∧
    (audio_play_tone c1_s2 100).driver_started = c1_s2.driver_started ∧
    (audio_play_tone c1_s2 100).state_changed = c1_s2.state_changed ∧
    (audio_play_tone c1_s2 100).playing_note = c1_s2.playing_note :=
  c1_play_tone_present_moves_to_top c1_s2 100 (by decide) (by decide) (by decide)

/-- C6: for every sequence of audio_play_tone calls starting from the
post-boot initial state, the number of active tones never exceeds
AUDIO_TONE_STACKSIZE and the stored active frequencies are pairwise
distinct. -/
theorem c6_play_tone_stack_capacity_nodup (fs : List ℚ) :
    (fs.foldl audio_play_tone initState).active_tones ≤ AUDIO_TONE_STACKSIZE ∧
    (activeFreqs (fs.foldl audio_play_tone initState)).Nodup := by
  have main : ∀ (l : List ℚ) (s : AudioState), StackWF s →
      StackWF (l.foldl audio_play_tone s) := by
    intro l
    induction l with
    | nil => intro s h; exact h
    | cons x l ih =>
      intro s h
      exact ih _ (play_tone_StackWF s x h)
  have h0 : StackWF initState := by decide
  obtain ⟨-, -, h1, h2⟩ := main fs initState h0
  exact ⟨h1, h2⟩

/-- C7: a request on a full well-formed stack for a frequency that is not
present evicts exactly the least-recently-added entry (the one at the
lowest index), shifts the remaining entries down and appends the new
frequency at the top; the count stays at capacity. -/
theorem c7_play_tone_full_evicts_oldest (s : AudioState) (f : ℚ)
    (hwf : StackWF s) (hen : s.enable = true)
    (hfull : s.active_tones = AUDIO_TONE_STACKSIZE)
    (hnot : fabs f ∉ activeFreqs s) :
    activeFreqs (audio_play_tone s f) = (activeFreqs s).drop 1 ++ [fabs f] ∧
    (audio_play_tone s f).active_tones = AUDIO_TONE_STACKSIZE := by
  obtain ⟨hinit, hlen, ha, hnd⟩ := hwf
  have hft := find_top_none_of_not_mem s (fabs f) hlen ha hnot
  exact ⟨play_tone_evict_activeFreqs s f hen hinit hlen hfull hft,
    (play_tone_evict_fields s f hen hinit hfull hft).1⟩

/-- C7 witness: the ninth distinct frequency 900 pushed onto the full stack
[100, ..., 800] evicts 100 and yields [200, ..., 800, 900]. -/
theorem c7_play_tone_full_evicts_oldest_witness :
    activeFreqs (audio_play_tone fullStack 900) =
      (activeFreqs fullStack).drop 1 ++ [fabs 900] ∧
    (audio_play_tone fullStack 900).active_tones = AUDIO_TONE_STACKSIZE :=
  c7_play_tone_full_evicts_oldest fullStack 900 (by decide) (by decide) (by decide)
    (by decide)

/-- C8: audio_set_tempo clamps below at 10 and has no upper clamp within
the uint8_t range; audio_increase_tempo saturates at 255 without wrapping;
audio_decrease_tempo saturates at the floor 10 without wrapping, computing
max(10, t - d) in integer arithmetic. -/
theorem c8_tempo_clamp_saturate (s : AudioState) (d : Nat)
    (hd : d ≤ 255) (ht : s.note_tempo ≤ 255) :
    (audio_set_tempo s d).note_tempo = (if d < 10 then 10 else d) ∧
    (audio_increase_tempo s d).note_tempo = min 255 (s.note_tempo + d) ∧
    ((audio_decrease_tempo s d).note_tempo : Int) =
      max 10 ((s.note_tempo : Int) - (d : Int)) := by
  refine ⟨?_, ?_, ?_⟩
  · rw [audio_set_tempo]
    by_cases h : d < 10
    · rw [if_pos h, if_pos h]
    · rw [if_neg h, if_neg h]
  · rw [audio_increase_tempo]
    by_cases h : 255 - s.note_tempo < d
    · rw [if_pos h]
      simp only
      omega
    · rw [if_neg h]
      simp only
      omega
  · rw [audio_decrease_tempo]
    by_cases h : (s.note_tempo : Int) - 10 ≤ (d : Int)
    · rw [if_pos h]
      simp only
      omega
    · rw [if_neg h]
      simp only
      omega

/-- C8 witness: the three tempo operations applied at tempo 120 with
argument 115 (set clamps nothing, increase saturates nothing here,
decrease hits 120 - 115 = 5 below the floor and clamps to 10). -/
theorem c8_tempo_clamp_saturate_witness :
    (audio_set_tempo s120 115).note_tempo = (if 115 < 10 then 10 else 115) ∧
    (audio_increase_tempo s120 115).note_tempo = min 255 (s120.note_tempo + 115) ∧
    ((audio_decrease_tempo s120 115).note_tempo : Int) =
      max 10 ((s120.note_tempo : Int) - (115 : Int)) :=
  c8_tempo_clamp_saturate s120 115 (by decide) (by decide)

/-! ### Claim theorems: melody scenarios (C2, C9, C5) -/

/-- C2: playing the non-repeating melody [(440,4),(440,4)] at tempo 120
inserts exactly one synthetic silent rest between the two notes.  After the
first note completes (two unit ticks), the sequencer has note_resting set,
is still on note index 0, has note_length equal to the short rest of 2
abstract units scaled by 60/tempo, has requested frequency 0 and released
the previous 440 (the active stack is now [0]); over the whole playback the
requested frequencies are 440, then 0, then 440, and the melody completes
on the fifth unit tick. -/
theorem c2_same_note_rest_insertion :
    (runTicks c2_start [1, 1]).note_resting = true ∧
    (runTicks c2_start [1, 1]).current_note = 0 ∧
    (runTicks c2_start [1, 1]).note_length = 2 * (60 / 120) ∧
    (runTicks c2_start [1, 1]).req_log = [440, 0] ∧
    (runTicks c2_start [1, 1]).rel_log = [440] ∧
    activeFreqs (runTicks c2_start [1, 1]) = [0] ∧
    (runTicks c2_start [1, 1, 1, 1]).playing_melody = true ∧
    (runTicks c2_start [1, 1, 1, 1, 1]).playing_melody = false ∧
    (runTicks c2_start [1, 1, 1, 1, 1]).req_log = [440, 0, 440] := by
  decide

/-- C9: in the same rest-insertion scenario, when the sequencer resumes the
repeated note it requests 440 but does not call audio_stop_tone (the two
frequencies are equal), so the silent frequency 0 requested for the rest is
never removed; at completion the final release of 440 leaves active_tones
at 1 (the stack still holds [0]), playing_note remains true, and
audio_driver_stop is never called. -/
theorem c9_rest_leaves_zero_tone_stuck :
    (runTicks c2_start [1, 1, 1]).req_log = [440, 0, 440] ∧
    (runTicks c2_start [1, 1, 1]).rel_log = [440] ∧
    activeFreqs (runTicks c2_start [1, 1, 1]) = [0, 440] ∧
    (runTicks c2_start [1, 1, 1, 1, 1]).playing_melody = false ∧
    (runTicks c2_start [1, 1, 1, 1, 1]).rel_log = [440, 440] ∧
    activeFreqs (runTicks c2_start [1, 1, 1, 1, 1]) = [0] ∧
    (runTicks c2_start [1, 1, 1, 1, 1]).active_tones = 1 ∧
    (runTicks c2_start [1, 1, 1, 1, 1]).playing_note = true ∧
    (runTicks c2_start [1, 1, 1, 1, 1]).driver_stopped = 0 := by
  decide

/-- C5, counterexample: audio_play_click(delay=0, frequency=1000,
duration=5) at tempo 120 computes note_length = 3/10, not the value
(64/60) x 120 x (5/1000) x (60/120) = 8/25 that the claim's real-number
reading of the formula gives: in the C source 64 / 60 is integer division
and evaluates to 1. -/
theorem c5_play_click_note_length_cex :
    c5_click.note_length = 3 / 10 ∧
    ((64 : ℚ) / 60) * 120 * (5 / 1000) * (60 / 120) = 8 / 25 ∧
    c5_click.note_length ≠ ((64 : ℚ) / 60) * 120 * (5 / 1000) * (60 / 120) := by
  decide

/-- C5, amended: audio_play_click(delay=0, frequency=1000, duration=5) at
tempo 120 installs a one-note non-repeating melody whose note_length equals
(64 / 60 in C integer arithmetic, i.e. 1) x 120 x (5/1000) x (60/120) =
3/10, and the playback completes on the next tick with audio_driver_stop
fired and the stack emptied. -/
theorem c5_play_click_scenario :
    c5_click.playing_melody = true ∧
    c5_click.notes_count = 1 ∧
    c5_click.notes_repeat = false ∧
    c5_click.note_length =
      ((64 / 60 : Nat) : ℚ) * 120 * (5 / 1000) * (60 / 120) ∧
    c5_click.note_length = 3 / 10 ∧
    (audio_advance_state c5_click 1 1 false false).1 = true ∧
    (audio_advance_state c5_click 1 1 false false).2.playing_melody = false ∧
    (audio_advance_state c5_click 1 1 false false).2.driver_stopped =
      c5_click.driver_stopped + 1 ∧
    (audio_advance_state c5_click 1 1 false false).2.active_tones = 0 ∧
    (audio_advance_state c5_click 1 1 false false).2.playing_note = false := by
  decide

/-! ### C4: the four stages of audio_advance_state and the early return -/

theorem advance_tail_latch (s : AudioState) (g : Bool) :
    (advance_tail s g).2.state_changed = false ∧
    (s.state_changed = true → (advance_tail s g).1 = true) := by
  rw [advance_tail]
  have hsc : (if s.playing_note = false ∧ s.playing_melody = false
      then audio_stop_all s else s).state_changed = s.state_changed := by
    split
    · rw [audio_stop_all, audio_init]
      split <;> rfl
    · rfl
  by_cases hb : (if s.playing_note = false ∧ s.playing_melody = false
      then audio_stop_all s else s).state_changed = true
  · rw [if_pos hb]
    exact ⟨rfl, fun _ => rfl⟩
  · rw [if_neg hb]
    constructor
    · cases hx : (if s.playing_note = false ∧ s.playing_melody = false
        then audio_stop_all s else s).state_changed
      · rfl
      · exact absurd hx hb
    · intro h
      rw [hsc] at hb
      exact absurd h hb

theorem play_tone_latch_mono (s : AudioState) (f : ℚ) (h : s.state_changed = true) :
    (audio_play_tone s f).state_changed = true := by
  rw [audio_play_tone]
  split
  · exact h
  · dsimp only
    split
    · rw [audio_init]
      split
      · exact h
      · exact h
    · split <;> split <;> rfl

theorem stop_tone_latch_mono (s : AudioState) (f : ℚ) (h : s.state_changed = true) :
    (audio_stop_tone s f).state_changed = true := by
  rw [audio_stop_tone]
  dsimp only
  split
  · exact h
  · split
    · rw [audio_init]
      split
      · exact h
      · exact h
    · split <;> rfl

theorem ite_stop_tone_latch_mono (c : Prop) [Decidable c] (s : AudioState) (f : ℚ)
    (h : s.state_changed = true) :
    (if c then audio_stop_tone s f else s).state_changed = true := by
  split
  · exact stop_tone_latch_mono _ _ h
  · exact h

theorem melody_transition_latch_mono (s : AudioState) (prev : Nat) (e : ℚ)
    (h : s.state_changed = true) :
    (melody_transition s prev e).state_changed = true := by
  rw [melody_transition]
  split
  · exact stop_tone_latch_mono _ _ (play_tone_latch_mono _ _ h)
  · exact ite_stop_tone_latch_mono _ _ _ (play_tone_latch_mono _ _ h)

/-- C4, counterexample: on the call in which a non-repeating melody reaches
its end, audio_advance_state returns early.  With a one-note melody at
tempo 120 whose latch was clear, the terminal call (which satisfies
melodyEnds) returns true but leaves state_changed SET (the final
audio_stop_tone raised it and the latch stage that would clear it is
skipped), and the defensive stop_all is skipped too: the frequency array is
not reset even though neither a note nor a melody is active afterwards. -/
theorem c4_terminal_call_skips_stages_cex :
    c4_end.state_changed = false ∧
    melodyEnds c4_end 1 1 ∧
    (audio_advance_state c4_end 1 1 false false).1 = true ∧
    (audio_advance_state c4_end 1 1 false false).2.state_changed = true ∧
    (audio_advance_state c4_end 1 1 false false).2.playing_note = false ∧
    (audio_advance_state c4_end 1 1 false false).2.playing_melody = false ∧
    (audio_advance_state c4_end 1 1 false false).2.frequencies ≠
      List.replicate AUDIO_TONE_STACKSIZE (-1) := by
  decide

/-- C4, amended: audio_advance_state evaluates the defensive-stop stage and
the state_changed latch stage (which, when the latch is set, forces the
return value true and clears the latch) on every call EXCEPT the one in
which a non-repeating melody reaches its end: that call returns true
immediately after releasing the last note's frequency, with no defensive
stop_all and no latch clearing. -/
theorem c4_advance_stage_behaviour (s : AudioState) (step : Nat) (e : ℚ)
    (vib glis : Bool) :
    (¬ melodyEnds s step e →
      (audio_advance_state s step e vib glis).2.state_changed = false) ∧
    (s.state_changed = true → ¬ melodyEnds s step e →
      (audio_advance_state s step e vib glis).1 = true) ∧
    (melodyEnds s step e →
      (audio_advance_state s step e vib glis).1 = true ∧
      (audio_advance_state s step e vib glis).2 =
        audio_stop_tone
          { s with note_position := (s.note_position + step) % UINT32_MOD,
                   current_note := s.current_note + 1,
                   playing_melody := false }
          (note_at s s.current_note).1) := by
  rw [audio_advance_state]
  cases hm : s.playing_melody
  · simp only [Bool.false_eq_true, if_false]
    refine ⟨fun _ => (advance_tail_latch _ _).1,
      fun h _ => (advance_tail_latch _ _).2 h, fun hends => ?_⟩
    rw [melodyEnds, hm] at hends
    exact absurd hends.1 (by simp)
  · simp only [if_true]
    by_cases hc : s.note_length * e ≤ (((s.note_position + step) % UINT32_MOD : Nat) : ℚ)
    · rw [if_pos hc]
      by_cases hcount : s.notes_count ≤ s.current_note + 1
      · rw [if_pos hcount]
        cases hrep : s.notes_repeat
        · simp only [Bool.false_eq_true, if_false]
          refine ⟨fun hne => absurd ⟨hm, hc, hcount, hrep⟩ hne,
            fun _ hne => absurd ⟨hm, hc, hcount, hrep⟩ hne,
            fun _ => ⟨by trivial, by trivial⟩⟩
        · simp only [if_true]
          refine ⟨fun _ => (advance_tail_latch _ _).1,
            fun h _ => (advance_tail_latch _ _).2
              (melody_transition_latch_mono _ _ _ h), fun hends => ?_⟩
          rw [melodyEnds, hrep] at hends
          exact absurd hends.2.2.2 (by simp)
      · rw [if_neg hcount]
        refine ⟨fun _ => (advance_tail_latch _ _).1,
          fun h _ => (advance_tail_latch _ _).2
            (melody_transition_latch_mono _ _ _ h), fun hends => ?_⟩
        exact absurd hends.2.2.1 hcount
    · rw [if_neg hc]
      refine ⟨fun _ => (advance_tail_latch _ _).1,
        fun h _ => (advance_tail_latch _ _).2 h, fun hends => ?_⟩
      exact absurd hends.2.1 hc

/-- C4 witness: the amended theorem's terminal clause applied to the
concrete one-note melody about to end. -/
theorem c4_advance_stage_behaviour_witness :
    (audio_advance_state c4_end 1 1 false false).1 = true ∧
    (audio_advance_state c4_end 1 1 false false).2 =
      audio_stop_tone
        { c4_end with note_position := (c4_end.note_position + 1) % UINT32_MOD,
                      current_note := c4_end.current_note + 1,
                      playing_melody := false }
        (note_at c4_end c4_end.current_note).1 :=
  (c4_advance_stage_behaviour c4_end 1 1 false false).2.2 (by decide)

/-! ### C10: the playing_note / active_tones invariant -/

theorem NoteCountInv_of_fields (s s' : AudioState) (h : NoteCountInv s)
    (h1 : s'.playing_note = s.playing_note) (h2 : s'.active_tones = s.active_tones) :
    NoteCountInv s' := by
  unfold NoteCountInv at h ⊢
  rw [h1, h2]
  exact h

theorem stop_all_pn_inv (s : AudioState) : NoteCountInv (audio_stop_all s) := by
  rw [audio_stop_all, audio_init]
  split <;>
    exact ⟨by simp, by show (0 : Nat) ≤ 8; omega⟩

theorem audio_init_pn_inv (s : AudioState) (h : NoteCountInv s) :
    NoteCountInv (audio_init s) := by
  rw [audio_init]
  split
  · exact h
  · exact h

theorem ite_stop_all_pn (c : Prop) [Decidable c] (s : AudioState)
    (h : NoteCountInv s) : NoteCountInv (if c then audio_stop_all s else s) := by
  split
  · exact stop_all_pn_inv _
  · exact h

theorem play_tone_pn_inv (s : AudioState) (f : ℚ) (h : NoteCountInv s) :
    NoteCountInv (audio_play_tone s f) := by
  obtain ⟨hiff, hcap⟩ := h
  have hcap8 : s.active_tones ≤ 8 := hcap
  rw [audio_play_tone]
  split
  · exact ⟨hiff, hcap⟩
  · dsimp only
    rw [audio_init]
    split <;> split
    · exact ⟨hiff, hcap⟩
    · exact ⟨hiff, hcap⟩
    · split
      · split <;> refine ⟨?_, ?_⟩
        · show true = true ↔ 1 ≤ (8 : Nat)
          simp
        · show (8 : Nat) ≤ 8
          omega
        · show true = true ↔ 1 ≤ (8 : Nat)
          simp
        · show (8 : Nat) ≤ 8
          omega
      · rename_i hge
        have hge8 : ¬ (8 < (s.active_tones + 1) % 256) := hge
        split <;> refine ⟨?_, ?_⟩
        · show true = true ↔ 1 ≤ (s.active_tones + 1) % 256
          refine ⟨fun _ => by omega, fun _ => rfl⟩
        · show (s.active_tones + 1) % 256 ≤ 8
          omega
        · show true = true ↔ 1 ≤ (s.active_tones + 1) % 256
          refine ⟨fun _ => by omega, fun _ => rfl⟩
        · show (s.active_tones + 1) % 256 ≤ 8
          omega
    · split
      · split <;> refine ⟨?_, ?_⟩
        · show true = true ↔ 1 ≤ (8 : Nat)
          simp
        · show (8 : Nat) ≤ 8
          omega
        · show true = true ↔ 1 ≤ (8 : Nat)
          simp
        · show (8 : Nat) ≤ 8
          omega
      · rename_i hge
        have hge8 : ¬ (8 < (s.active_tones + 1) % 256) := hge
        split <;> refine ⟨?_, ?_⟩
        · show true = true ↔ 1 ≤ (s.active_tones + 1) % 256
          refine ⟨fun _ => by omega, fun _ => rfl⟩
        · show (s.active_tones + 1) % 256 ≤ 8
          omega
        · show true = true ↔ 1 ≤ (s.active_tones + 1) % 256
          refine ⟨fun _ => by omega, fun _ => rfl⟩
        · show (s.active_tones + 1) % 256 ≤ 8
          omega

theorem stop_tone_pn_inv (s : AudioState) (f : ℚ) (h : NoteCountInv s) :
    NoteCountInv (audio_stop_tone s f) := by
  obtain ⟨hiff, hcap⟩ := h
  have hcap8 : s.active_tones ≤ 8 := hcap
  rw [audio_stop_tone]
  dsimp only
  split
  · exact ⟨hiff, hcap⟩
  · rename_i hpn
    have hpn' : s.playing_note = true := by
      have hx : ¬ (s.playing_note = false) := hpn
      revert hx
      cases s.playing_note <;> simp
    have ha1 : 1 ≤ s.active_tones := hiff.mp hpn'
    rw [audio_init]
    split <;> split
    · exact ⟨hiff, hcap⟩
    · exact ⟨hiff, hcap⟩
    · split
      · refine ⟨?_, ?_⟩
        · show false = true ↔ 1 ≤ (s.active_tones + 255) % 256
          rename_i hz
          have hz0 : (s.active_tones + 255) % 256 = 0 := hz
          refine ⟨fun hx => absurd hx (by simp), fun hx => absurd hx (by omega)⟩
        · show (s.active_tones + 255) % 256 ≤ 8
          omega
      · refine ⟨?_, ?_⟩
        · show s.playing_note = true ↔ 1 ≤ (s.active_tones + 255) % 256
          rename_i hz
          have hz0 : ¬ ((s.active_tones + 255) % 256 = 0) := hz
          refine ⟨fun _ => by omega, fun _ => hpn'⟩
        · show (s.active_tones + 255) % 256 ≤ 8
          omega
    · split
      · refine ⟨?_, ?_⟩
        · show false = true ↔ 1 ≤ (s.active_tones + 255) % 256
          rename_i hz
          have hz0 : (s.active_tones + 255) % 256 = 0 := hz
          refine ⟨fun hx => absurd hx (by simp), fun hx => absurd hx (by omega)⟩
        · show (s.active_tones + 255) % 256 ≤ 8
          omega
      · refine ⟨?_, ?_⟩
        · show s.playing_note = true ↔ 1 ≤ (s.active_tones + 255) % 256
          rename_i hz
          have hz0 : ¬ ((s.active_tones + 255) % 256 = 0) := hz
          refine ⟨fun _ => by omega, fun _ => hpn'⟩
        · show (s.active_tones + 255) % 256 ≤ 8
          omega

theorem stop_tone_active_le (s : AudioState) (f : ℚ) (h : NoteCountInv s) :
    (audio_stop_tone s f).active_tones ≤ s.active_tones := by
  obtain ⟨hiff, hcap⟩ := h
  have hcap8 : s.active_tones ≤ 8 := hcap
  rw [audio_stop_tone]
  dsimp only
  split
  · exact Nat.le_refl _
  · rename_i hpn
    have hpn' : s.playing_note = true := by
      have hx : ¬ (s.playing_note = false) := hpn
      revert hx
      cases s.playing_note <;> simp
    have ha1 : 1 ≤ s.active_tones := hiff.mp hpn'
    rw [audio_init]
    split <;> split
    · exact Nat.le_refl _
    · exact Nat.le_refl _
    · split <;> (show (s.active_tones + 255) % 256 ≤ s.active_tones; omega)
    · split <;> (show (s.active_tones + 255) % 256 ≤ s.active_tones; omega)

theorem ite_stop_tone_pn (c : Prop) [Decidable c] (s : AudioState) (f : ℚ)
    (h : NoteCountInv s) : NoteCountInv (if c then audio_stop_tone s f else s) := by
  split
  · exact stop_tone_pn_inv _ _ h
  · exact h

theorem play_melody_pn_inv (s : AudioState) (np : List (ℚ × ℚ)) (c : Nat) (r : Bool)
    (h : NoteCountInv s) : NoteCountInv (audio_play_melody s np c r) := by
  rw [audio_play_melody]
  split
  · exact h
  · exact play_tone_pn_inv _ _
      (NoteCountInv_of_fields _ _ (ite_stop_all_pn _ _ (audio_init_pn_inv s h)) rfl rfl)

theorem advance_tail_pn_inv (s : AudioState) (g : Bool) (h : NoteCountInv s) :
    NoteCountInv ((advance_tail s g).2) := by
  rw [advance_tail]
  split <;> split
  · exact NoteCountInv_of_fields _ _ (stop_all_pn_inv s) rfl rfl
  · exact stop_all_pn_inv s
  · exact NoteCountInv_of_fields _ _ h rfl rfl
  · exact h

theorem melody_transition_pn_inv (s : AudioState) (prev : Nat) (e : ℚ)
    (h : NoteCountInv s) : NoteCountInv (melody_transition s prev e) := by
  rw [melody_transition]
  split
  · exact NoteCountInv_of_fields _ _
      (stop_tone_pn_inv _ _
        (play_tone_pn_inv { s with note_resting := true, current_note := prev } 0
          (NoteCountInv_of_fields _ { s with note_resting := true, current_note := prev }
            h rfl rfl))) rfl rfl
  · exact NoteCountInv_of_fields _ _
      (ite_stop_tone_pn _ _ _
        (play_tone_pn_inv { s with note_resting := false }
          (note_at { s with note_resting := false } s.current_note).1
          (NoteCountInv_of_fields _ { s with note_resting := false }
            h rfl rfl))) rfl rfl

theorem advance_pn_inv (s : AudioState) (step : Nat) (e : ℚ) (v g : Bool)
    (h : NoteCountInv s) : NoteCountInv ((audio_advance_state s step e v g).2) := by
  rw [audio_advance_state]
  split
  · dsimp only
    split
    · split
      · split
        · exact advance_tail_pn_inv _ _
            (melody_transition_pn_inv _ _ _ (NoteCountInv_of_fields _ _ h rfl rfl))
        · exact stop_tone_pn_inv _ _ (NoteCountInv_of_fields _ _ h rfl rfl)
      · exact advance_tail_pn_inv _ _
          (melody_transition_pn_inv _ _ _ (NoteCountInv_of_fields _ _ h rfl rfl))
    · exact advance_tail_pn_inv _ _ (NoteCountInv_of_fields _ _ h rfl rfl)
  · exact advance_tail_pn_inv _ _ h

/-- C10: the coupling "playing_note holds iff at least one tone is active"
(together with the capacity bound that protects the uint8 counter) holds in
the initial state and is preserved by every public operation; moreover
audio_stop_tone never increases active_tones -- in particular the modelled
uint8 decrement (+255 mod 256) never wraps the counter upward from 0,
because the decrement is only reachable when playing_note is set and hence
at least one tone is active. -/
theorem c10_playing_note_active_coupling :
    NoteCountInv initState ∧
    (∀ (s : AudioState) (op : AudioOp), NoteCountInv s → NoteCountInv (applyOp s op)) ∧
    (∀ (s : AudioState) (f : ℚ), NoteCountInv s →
      (audio_stop_tone s f).active_tones ≤ s.active_tones) := by
  refine ⟨by decide, ?_, stop_tone_active_le⟩
  intro s op h
  cases op with
  | playTone f => exact play_tone_pn_inv s f h
  | stopTone f => exact stop_tone_pn_inv s f h
  | stopAll => exact stop_all_pn_inv s
  | playMelody np c r => exact play_melody_pn_inv s np c r h
  | advance st e v g => exact advance_pn_inv s st e v g h

/-- C10 witness: the preservation clauses applied at the initial state. -/
theorem c10_playing_note_active_coupling_witness :
    NoteCountInv (applyOp initState (AudioOp.playTone 440)) ∧
    (audio_stop_tone initState 440).active_tones ≤ initState.active_tones :=
  ⟨c10_playing_note_active_coupling.2.1 initState (AudioOp.playTone 440) (by decide),
   c10_playing_note_active_coupling.2.2 initState 440 (by decide)⟩

/-! ### C3: stepping lemmas for the melody sequencer -/

theorem MelodySame_refl (s : AudioState) : MelodySame s s :=
  ⟨rfl, rfl, rfl, rfl, rfl, rfl, rfl, rfl, rfl⟩

theorem play_tone_melody_same (s : AudioState) (f : ℚ) :
    MelodySame (audio_play_tone s f) s := by
  rw [audio_play_tone]
  split
  · exact MelodySame_refl s
  · dsimp only
    rw [audio_init]
    split <;> split
    · exact ⟨rfl, rfl, rfl, rfl, rfl, rfl, rfl, rfl, rfl⟩
    · exact ⟨rfl, rfl, rfl, rfl, rfl, rfl, rfl, rfl, rfl⟩
    · split <;> split <;> exact ⟨rfl, rfl, rfl, rfl, rfl, rfl, rfl, rfl, rfl⟩
    · split <;> split <;> exact ⟨rfl, rfl, rfl, rfl, rfl, rfl, rfl, rfl, rfl⟩

theorem stop_tone_melody_same (s : AudioState) (f : ℚ) :
    MelodySame (audio_stop_tone s f) s := by
  rw [audio_stop_tone]
  dsimp only
  split
  · exact MelodySame_refl _
  · rw [audio_init]
    split <;> split
    · exact ⟨rfl, rfl, rfl, rfl, rfl, rfl, rfl, rfl, rfl⟩
    · exact ⟨rfl, rfl, rfl, rfl, rfl, rfl, rfl, rfl, rfl⟩
    · split <;> exact ⟨rfl, rfl, rfl, rfl, rfl, rfl, rfl, rfl, rfl⟩
    · split <;> exact ⟨rfl, rfl, rfl, rfl, rfl, rfl, rfl, rfl, rfl⟩

theorem ite_stop_tone_melody_same (c : Prop) [Decidable c] (s : AudioState) (f : ℚ) :
    MelodySame (if c then audio_stop_tone s f else s) s := by
  split
  · exact stop_tone_melody_same _ _
  · exact MelodySame_refl _

theorem advance_tail_melody_same (s : AudioState) (g : Bool)
    (hm : s.playing_melody = true) :
    MelodySame ((advance_tail s g).2) s := by
  rw [advance_tail]
  have hns : (if s.playing_note = false ∧ s.playing_melody = false
      then audio_stop_all s else s) = s := by
    rw [if_neg (by rw [hm]; simp)]
  rw [hns]
  split
  · exact ⟨rfl, rfl, rfl, rfl, rfl, rfl, rfl, rfl, rfl⟩
  · exact MelodySame_refl _

theorem advance_step_stay (s : AudioState) (st : Nat) (e : ℚ) (v g : Bool)
    (hm : s.playing_melody = true)
    (hnc : ¬ (s.note_length * e ≤ (((s.note_position + st) % UINT32_MOD : Nat) : ℚ))) :
    MelodySame ((audio_advance_state s st e v g).2)
      { s with note_position := (s.note_position + st) % UINT32_MOD } := by
  rw [audio_advance_state, hm]
  simp only [if_true]
  rw [if_neg hnc]
  exact advance_tail_melody_same _ _ rfl

theorem advance_step_terminal (s : AudioState) (st : Nat) (e : ℚ) (v g : Bool)
    (hm : s.playing_melody = true)
    (hc : s.note_length * e ≤ (((s.note_position + st) % UINT32_MOD : Nat) : ℚ))
    (hcount : s.notes_count ≤ s.current_note + 1)
    (hrep : s.notes_repeat = false) :
    (audio_advance_state s st e v g).1 = true ∧
    (audio_advance_state s st e v g).2.playing_melody = false := by
  rw [audio_advance_state, hm]
  simp only [if_true]
  rw [if_pos hc, if_pos hcount, hrep]
  simp only [Bool.false_eq_true, if_false]
  refine ⟨trivial, ?_⟩
  have hsame := stop_tone_melody_same
    { s with playing_melody := false, notes_repeat := false,
             note_position := (s.note_position + st) % UINT32_MOD,
             current_note := s.current_note + 1 }
    (note_at
      { s with playing_melody := true, notes_repeat := false,
               note_position := (s.note_position + st) % UINT32_MOD,
               current_note := s.current_note + 1 } s.current_note).1
  exact hsame.1

theorem melody_transition_normal_spec (s : AudioState) (prev : Nat) (e : ℚ)
    (hcond : ¬ (s.note_resting = false ∧
      (note_at s prev).1 = (note_at s s.current_note).1)) :
    (melody_transition s prev e).playing_melody = s.playing_melody ∧
    (melody_transition s prev e).notes = s.notes ∧
    (melody_transition s prev e).notes_count = s.notes_count ∧
    (melody_transition s prev e).notes_repeat = s.notes_repeat ∧
    (melody_transition s prev e).note_tempo = s.note_tempo ∧
    (melody_transition s prev e).current_note = s.current_note ∧
    (melody_transition s prev e).note_resting = false ∧
    (melody_transition s prev e).note_position =
      floor_to_nat ((s.note_position : ℚ) - s.note_length * e) ∧
    (melody_transition s prev e).note_length =
      (note_at s s.current_note).2 * (60 / (s.note_tempo : ℚ)) := by
  rw [melody_transition, if_neg hcond]
  refine ⟨?_, ?_, ?_, ?_, ?_, ?_, ?_, ?_, ?_⟩
  · exact ((ite_stop_tone_melody_same _ _ _).1.trans (play_tone_melody_same _ _).1)
  · exact ((ite_stop_tone_melody_same _ _ _).2.1.trans (play_tone_melody_same _ _).2.1)
  · exact ((ite_stop_tone_melody_same _ _ _).2.2.1.trans
      (play_tone_melody_same _ _).2.2.1)
  · exact ((ite_stop_tone_melody_same _ _ _).2.2.2.1.trans
      (play_tone_melody_same _ _).2.2.2.1)
  · exact ((ite_stop_tone_melody_same _ _ _).2.2.2.2.2.1.trans
      (play_tone_melody_same _ _).2.2.2.2.2.1)
  · exact ((ite_stop_tone_melody_same _ _ _).2.2.2.2.2.2.1.trans
      (play_tone_melody_same _ _).2.2.2.2.2.2.1)
  · exact ((ite_stop_tone_melody_same _ _ _).2.2.2.2.2.2.2.2.trans
      (play_tone_melody_same _ _).2.2.2.2.2.2.2.2)
  · refine congrArg floor_to_nat ?_
    rw [(ite_stop_tone_melody_same _ _ _).2.2.2.2.2.2.2.1,
      (play_tone_melody_same _ _).2.2.2.2.2.2.2.1,
      (ite_stop_tone_melody_same _ _ _).2.2.2.2.1,
      (play_tone_melody_same _ _).2.2.2.2.1]
  · simp only [note_at]
    rw [(ite_stop_tone_melody_same _ _ _).2.1, (play_tone_melody_same _ _).2.1,
      (ite_stop_tone_melody_same _ _ _).2.2.2.2.2.2.1,
      (play_tone_melody_same _ _).2.2.2.2.2.2.1,
      (ite_stop_tone_melody_same _ _ _).2.2.2.2.2.1,
      (play_tone_melody_same _ _).2.2.2.2.2.1]

theorem advance_step_normal (s : AudioState) (st : Nat) (e : ℚ) (v g : Bool)
    (hm : s.playing_melody = true)
    (hc : s.note_length * e ≤ (((s.note_position + st) % UINT32_MOD : Nat) : ℚ))
    (hcount : ¬ (s.notes_count ≤ s.current_note + 1))
    (hne : (note_at s s.current_note).1 ≠ (note_at s (s.current_note + 1)).1) :
    (audio_advance_state s st e v g).2.playing_melody = s.playing_melody ∧
    (audio_advance_state s st e v g).2.notes = s.notes ∧
    (audio_advance_state s st e v g).2.notes_count = s.notes_count ∧
    (audio_advance_state s st e v g).2.notes_repeat = s.notes_repeat ∧
    (audio_advance_state s st e v g).2.note_tempo = s.note_tempo ∧
    (audio_advance_state s st e v g).2.current_note = s.current_note + 1 ∧
    (audio_advance_state s st e v g).2.note_resting = false ∧
    (audio_advance_state s st e v g).2.note_position =
      floor_to_nat ((((s.note_position + st) % UINT32_MOD : Nat) : ℚ) -
        s.note_length * e) ∧
    (audio_advance_state s st e v g).2.note_length =
      (note_at s (s.current_note + 1)).2 * (60 / (s.note_tempo : ℚ)) := by
  obtain ⟨q1, q2, q3, q4, q5, q6, q7, q8, q9⟩ := melody_transition_normal_spec
    { s with playing_melody := true,
             note_position := (s.note_position + st) % UINT32_MOD,
             current_note := s.current_note + 1 }
    s.current_note e
    (fun hand => hne hand.2)
  obtain ⟨t1, t2, t3, t4, t5, t6, t7, t8, t9⟩ := advance_tail_melody_same
    (melody_transition
      { s with playing_melody := true,
               note_position := (s.note_position + st) % UINT32_MOD,
               current_note := s.current_note + 1 } s.current_note e)
    true q1
  rw [audio_advance_state, hm]
  simp only [if_true]
  rw [if_pos hc, if_neg hcount]
  exact ⟨t1.trans q1, t2.trans q2, t3.trans q3, t4.trans q4,
    t6.trans q5, t7.trans q6, t9.trans q7, t8.trans q8, t5.trans q9⟩

theorem floor_to_nat_cast (n : Nat) : floor_to_nat ((n : ℚ)) = n := by
  unfold floor_to_nat
  rw [show ((n : ℚ)).floor = (n : ℤ) from rfl]
  exact Int.toNat_natCast n

theorem floor_to_nat_cast_sub (m k : Nat) (h : k ≤ m) :
    floor_to_nat ((m : ℚ) - (k : ℚ)) = m - k := by
  rw [← Nat.cast_sub h]
  exact floor_to_nat_cast _

theorem rat_den_one_exists (q : ℚ) (hd : q.den = 1) (h0 : 0 ≤ q) :
    ∃ k : Nat, q = (k : ℚ) := by
  refine ⟨q.num.toNat, ?_⟩
  have hnum : 0 ≤ q.num := Rat.num_nonneg.mpr h0
  have h1 : ((q.num : ℤ) : ℚ) = q := (Rat.den_eq_one_iff q).mp hd
  rw [← h1]
  exact_mod_cast (congrArg (fun z : ℤ => ((z : ℚ))) (Int.toNat_of_nonneg hnum)).symm

theorem restSum_unfold (ns : List (ℚ × ℚ)) (T i : Nat) (h : i < ns.length) :
    restSum ns T i = noteLen ns T i + restSum ns T (i + 1) := by
  unfold restSum
  rw [show ns.length - i = (ns.length - (i + 1)) + 1 from by omega]
  rfl

theorem restSumAux_nonneg (ns : List (ℚ × ℚ)) (T : Nat)
    (hnn : ∀ j, 0 ≤ noteLen ns T j) :
    ∀ fuel i, 0 ≤ restSumAux ns T i fuel
  | 0, _ => le_refl 0
  | fuel + 1, i => add_nonneg (hnn i) (restSumAux_nonneg ns T hnn fuel (i + 1))

theorem noteLen_eq_zero_of_ge (ns : List (ℚ × ℚ)) (T j : Nat)
    (h : ns.length ≤ j) : noteLen ns T j = 0 := by
  unfold noteLen
  rw [List.getD_eq_default _ _ h]
  simp

theorem noteLen_nonneg_of_good (ns : List (ℚ × ℚ)) (T B : Nat)
    (hg : GoodMelody ns T B) (j : Nat) : 0 ≤ noteLen ns T j := by
  rcases lt_or_ge j ns.length with h | h
  · exact le_trans (Nat.cast_nonneg B) (hg.2.2.1 j h).2
  · rw [noteLen_eq_zero_of_ge ns T j h]

theorem restSum_nonneg_of_good (ns : List (ℚ × ℚ)) (T B : Nat)
    (hg : GoodMelody ns T B) (i : Nat) : 0 ≤ restSum ns T i :=
  restSumAux_nonneg ns T (noteLen_nonneg_of_good ns T B hg) _ i

theorem noteLen_le_restSum_of_good (ns : List (ℚ × ℚ)) (T B : Nat)
    (hg : GoodMelody ns T B) (i : Nat) (h : i < ns.length) :
    noteLen ns T i ≤ restSum ns T i := by
  rw [restSum_unfold ns T i h]
  have h1 := restSum_nonneg_of_good ns T B hg (i + 1)
  linarith

theorem restSum_le_head_of_good (ns : List (ℚ × ℚ)) (T B : Nat)
    (hg : GoodMelody ns T B) :
    ∀ i, i ≤ ns.length → restSum ns T i ≤ restSum ns T 0
  | 0, _ => le_refl _
  | i + 1, h => by
    have h1 : i < ns.length := by omega
    have h2 := restSum_unfold ns T i h1
    have h3 := noteLen_nonneg_of_good ns T B hg i
    have h4 := restSum_le_head_of_good ns T B hg i (by omega)
    linarith

/-- audio_play_melody installs the melody-sequencer fields of MelodyRun:
note 0, position 0, non-repeating, note_length scaled by the tempo. -/
theorem play_melody_melody_run (s0 : AudioState) (ns : List (ℚ × ℚ)) (T : Nat)
    (hen : s0.enable = true) (hinit : s0.audio_inited = true)
    (htempo : s0.note_tempo = T) :
    MelodyRun ns T 0 0 (audio_play_melody s0 ns ns.length false) := by
  rw [audio_play_melody]
  rw [if_neg (show ¬ (s0.enable = false) from by rw [hen]; simp)]
  dsimp only
  rw [audio_init, if_pos hinit]
  have hT2 : (if s0.playing_note = true then audio_stop_all s0 else s0).note_tempo = T := by
    split
    · rw [audio_stop_all]
      show (audio_init s0).note_tempo = T
      rw [audio_init, if_pos hinit]
      exact htempo
    · exact htempo
  refine ⟨(play_tone_melody_same _ _).1, (play_tone_melody_same _ _).2.1,
    (play_tone_melody_same _ _).2.2.1, (play_tone_melody_same _ _).2.2.2.1,
    (play_tone_melody_same _ _).2.2.2.2.2.2.2.2,
    (play_tone_melody_same _ _).2.2.2.2.2.2.1,
    (play_tone_melody_same _ _).2.2.2.2.2.2.2.1, ?_, ?_⟩
  · refine (play_tone_melody_same _ _).2.2.2.2.1.trans ?_
    show (ns.getD 0 (0, 0)).2 *
      (60 / (((if s0.playing_note = true then audio_stop_all s0 else s0).note_tempo : Nat) : ℚ))
      = noteLen ns T 0
    rw [hT2]
    rfl
  · exact (play_tone_melody_same _ _).2.2.2.2.2.1.trans hT2

/-- Main induction for the amended C3: along any run of positive tick steps
bounded by B over a GoodMelody, the total consumed up to completion lies in
[restSum i - pos, restSum i - pos + B). -/
theorem melody_ticks_aux (ns : List (ℚ × ℚ)) (T B : Nat) (hg : GoodMelody ns T B) :
    ∀ steps : List Nat, ∀ i pos : Nat, ∀ s : AudioState, ∀ S : Nat,
      MelodyRun ns T i pos s → i < ns.length → (pos : ℚ) < noteLen ns T i →
      (∀ st ∈ steps, 1 ≤ st ∧ st ≤ B) →
      ticksTaken s steps = some S →
      restSum ns T i - (pos : ℚ) ≤ (S : ℚ) ∧
      (S : ℚ) < restSum ns T i - (pos : ℚ) + (B : ℚ) := by
  intro steps
  induction steps with
  | nil =>
    intro i pos s S _ _ _ _ htk
    simp [ticksTaken] at htk
  | cons st rest ih =>
    intro i pos s S hrun hi hpos hsteps htk
    obtain ⟨hm, hnotes, hcount, hrep, hrest, hcur, hposf, hlen, htempo⟩ := hrun
    obtain ⟨hst1, hstB⟩ := hsteps st (List.mem_cons_self st rest)
    have hsteps' : ∀ u ∈ rest, 1 ≤ u ∧ u ≤ B :=
      fun u hu => hsteps u (List.mem_cons_of_mem st hu)
    have hBle := (hg.2.2.1 i hi).2
    have hden := (hg.2.2.1 i hi).1
    have hstQ : ((st : Nat) : ℚ) ≤ (B : ℚ) := Nat.cast_le.mpr hstB
    have hmodN : pos + st < UINT32_MOD := by
      have h1 := noteLen_le_restSum_of_good ns T B hg i hi
      have h2 := restSum_le_head_of_good ns T B hg i (Nat.le_of_lt hi)
      have h3 := hg.2.2.2.2
      have h5 : ((pos + st : Nat) : ℚ) < (UINT32_MOD : ℚ) := by
        push_cast
        linarith
      exact_mod_cast h5
    have hmod : (s.note_position + st) % UINT32_MOD = pos + st := by
      rw [hposf]
      exact Nat.mod_eq_of_lt hmodN
    by_cases hc : s.note_length * (1 : ℚ) ≤
        (((s.note_position + st) % UINT32_MOD : Nat) : ℚ)
    · by_cases hcnt : s.notes_count ≤ s.current_note + 1
      · -- the melody completes on this call
        have hterm := advance_step_terminal s st 1 false false hm hc hcnt hrep
        simp only [ticksTaken] at htk
        rw [if_pos hterm.2] at htk
        have hS : st = S := Option.some.inj htk
        subst hS
        have hle : ns.length ≤ i + 1 := by
          have h := hcnt
          rw [hcount, hcur] at h
          exact h
        have hrs : restSum ns T i = noteLen ns T i := by
          unfold restSum
          rw [show ns.length - i = 1 from by omega]
          simp [restSumAux]
        rw [hlen, mul_one, hmod] at hc
        push_cast at hc
        rw [hrs]
        constructor
        · linarith
        · linarith
      · -- advance to the next note, carrying the overshoot
        have hi1 : i + 1 < ns.length := by
          have h := hcnt
          rw [hcount, hcur] at h
          omega
        have hadj := hg.2.2.2.1 i (by omega)
        have hne : (note_at s s.current_note).1 ≠ (note_at s (s.current_note + 1)).1 := by
          simp only [note_at]
          rw [hnotes, hcur]
          exact hadj
        obtain ⟨n1, n2, n3, n4, n5, n6, n7, n8, n9⟩ :=
          advance_step_normal s st 1 false false hm hc hcnt hne
        obtain ⟨k, hk⟩ := rat_den_one_exists (noteLen ns T i) hden
          (le_trans (Nat.cast_nonneg B) hBle)
        rw [hlen, mul_one, hmod] at hc
        have hkle : k ≤ pos + st := by
          rw [hk] at hc
          exact_mod_cast hc
        have hposk : pos < k := by
          rw [hk] at hpos
          exact_mod_cast hpos
        have hpos' : (audio_advance_state s st 1 false false).2.note_position
            = pos + st - k := by
          rw [n8, hmod, hlen, mul_one, hk]
          exact floor_to_nat_cast_sub _ _ hkle
        have hrun' : MelodyRun ns T (i + 1) (pos + st - k)
            (audio_advance_state s st 1 false false).2 := by
          refine ⟨n1.trans hm, n2.trans hnotes, n3.trans hcount, n4.trans hrep,
            n7, ?_, hpos', ?_, n5.trans htempo⟩
          · rw [n6, hcur]
          · rw [n9, htempo]
            simp only [note_at]
            rw [hnotes, hcur]
            rfl
        have hm' : (audio_advance_state s st 1 false false).2.playing_melody = true :=
          n1.trans hm
        simp only [ticksTaken] at htk
        rw [if_neg (by rw [hm']; simp)] at htk
        obtain ⟨t, htkr, hSt0⟩ := Option.map_eq_some'.mp htk
        have hSt : st + t = S := hSt0
        have hposQ' : ((pos + st - k : Nat) : ℚ) < noteLen ns T (i + 1) := by
          have hlt : pos + st - k < B := by omega
          calc ((pos + st - k : Nat) : ℚ) < (B : ℚ) := by exact_mod_cast hlt
            _ ≤ noteLen ns T (i + 1) := (hg.2.2.1 (i + 1) hi1).2
        have hIH := ih (i + 1) (pos + st - k) _ t hrun' hi1 hposQ' hsteps' htkr
        have hcast : ((pos + st - k : Nat) : ℚ) = (pos : ℚ) + (st : ℚ) - (k : ℚ) := by
          rw [Nat.cast_sub hkle, Nat.cast_add]
        rw [hcast] at hIH
        have hru := restSum_unfold ns T i hi
        rw [← hSt, hru, hk]
        push_cast
        constructor
        · linarith [hIH.1]
        · linarith [hIH.2]
    · -- the tick stays within the current note
      have hstay := advance_step_stay s st 1 false false hm hc
      have hm' : (audio_advance_state s st 1 false false).2.playing_melody = true :=
        hstay.1.trans hm
      simp only [ticksTaken] at htk
      rw [if_neg (by rw [hm']; simp)] at htk
      obtain ⟨t, htkr, hSt0⟩ := Option.map_eq_some'.mp htk
      have hSt : st + t = S := hSt0
      have hrun' : MelodyRun ns T i (pos + st)
          (audio_advance_state s st 1 false false).2 :=
        ⟨hstay.1.trans hm, hstay.2.1.trans hnotes, hstay.2.2.1.trans hcount,
          hstay.2.2.2.1.trans hrep, hstay.2.2.2.2.2.2.2.2.trans hrest,
          hstay.2.2.2.2.2.2.1.trans hcur, hstay.2.2.2.2.2.2.2.1.trans hmod,
          hstay.2.2.2.2.1.trans hlen, hstay.2.2.2.2.2.1.trans htempo⟩
      have hposQ' : ((pos + st : Nat) : ℚ) < noteLen ns T i := by
        rw [hlen, mul_one, hmod] at hc
        exact not_le.mp hc
      have hIH := ih i (pos + st) _ t hrun' hi hposQ' hsteps' htkr
      push_cast at hIH
      rw [← hSt]
      push_cast
      constructor
      · linarith [hIH.1]
      · linarith [hIH.2]

/-- C3 counterexample: the melody [(440,4),(440,4)] at tempo 30 (total
duration 4x(60/30) + 4x(60/30) = 16) driven by unit tick steps completes
only after 20 ticks: the inserted same-frequency rest adds 2x(60/30) = 4
time units, so the elapsed total exceeds the claimed sum of note durations
by far more than one tick step. -/
theorem c3_duration_conservation_cex :
    ticksTaken c3_start (List.replicate 20 1) = some 20 ∧
    restSum mel440 30 0 = 16 ∧
    ¬ ((20 : ℚ) ≤ restSum mel440 30 0 + 1) :=
  ⟨by decide, by decide, by decide⟩

/-- C3 (amended): for a non-repeating melody with no two consecutive equal
frequencies whose scaled note lengths are whole tick counts of at least B
and whose total stays clear of the uint32 wrap, playback started by
audio_play_melody and driven by audio_advance_state with end fraction 1 and
positive tick steps of at most B consumes a total S of ticks with
restSum <= S < restSum + B: the sum of note durations times 60/tempo,
within one tick step, with the overshoot carried across notes. -/
theorem c3_duration_conservation (ns : List (ℚ × ℚ)) (T B S : Nat)
    (s0 : AudioState) (steps : List Nat)
    (hg : GoodMelody ns T B)
    (hen : s0.enable = true) (hinit : s0.audio_inited = true)
    (htempo : s0.note_tempo = T)
    (hsteps : ∀ st ∈ steps, 1 ≤ st ∧ st ≤ B)
    (htk : ticksTaken (audio_play_melody s0 ns ns.length false) steps = some S) :
    restSum ns T 0 ≤ (S : ℚ) ∧ (S : ℚ) < restSum ns T 0 + (B : ℚ) := by
  have hrun := play_melody_melody_run s0 ns T hen hinit htempo
  have h0 : ((0 : Nat) : ℚ) < noteLen ns T 0 := by
    have h1 := (hg.2.2.1 0 hg.1).2
    have h2 : (1 : ℚ) ≤ (B : ℚ) := by exact_mod_cast hg.2.1
    push_cast
    linarith
  have h := melody_ticks_aux ns T B hg steps 0 0 _ S hrun hg.1 h0 hsteps htk
  simpa using h

/-- C3 witness: the two-note melody [(440,4),(220,4)] at tempo 120 with
unit ticks completes after exactly 4 ticks, and 4 lies in [restSum,
restSum + 1). -/
theorem c3_duration_conservation_witness :
    restSum [(440, 4), (220, 4)] 120 0 ≤ ((4 : Nat) : ℚ) ∧
    ((4 : Nat) : ℚ) < restSum [(440, 4), (220, 4)] 120 0 + ((1 : Nat) : ℚ) :=
  c3_duration_conservation [(440, 4), (220, 4)] 120 1 4 initState [1, 1, 1, 1]
    (by decide) (by decide) (by decide) (by decide) (by decide) (by decide)
